import Mathlib

/-!
# Package lifecycle and archive transfer of the fission command-line client

A shallow embedding of `fission/common.go` and `fission/package.go`.

The Go functions run against a local file system, the controller's resource
client, the storage service and the terminal.  They are embedded as state
transformers over an explicit `World`; every run returns its `Outcome`
(a normal return, or `os.Exit` with a status), the world it leaves behind and
the list of `Event`s it produced (terminal output and remote calls, in order).
-/

namespace Fission

/-! ## Data model -/

/-- A byte. -/
abbrev Byte := Fin 256

abbrev Bytes := List Byte

/-- Modelled from the spec: the archive type tag of package `fission` (its
declaration is not among the sources): `Literal` or `Url`; `empty` is the zero
value of an archive that was never set. -/
inductive ArchiveType where
  | empty
  | literal
  | url
  deriving DecidableEq, Repr

/-- Modelled from the spec: `fission.Archive`, `{type, literal, url}` (its
declaration is not among the sources). -/
structure Archive where
  Type_ : ArchiveType := ArchiveType.empty
  Literal : Bytes := []
  URL : String := ""
  deriving DecidableEq, Repr

/-- Modelled from the spec: `fission.BuildStatus` (its declaration is not among
the sources), one of Succeeded, Pending, Running, Failed. -/
inductive BuildStatus where
  | succeeded
  | pending
  | running
  | failed
  deriving DecidableEq, Repr

/-- Modelled from the spec: `api.ObjectMeta`, restricted to the fields the
client touches: name, namespace and the resource version stamp. -/
structure ObjectMeta where
  Name : String := ""
  Namespace : String := ""
  ResourceVersion : String := ""
  deriving DecidableEq, Repr

/-- Modelled from the spec: `fission.EnvironmentReference`, `{namespace, name}`. -/
structure EnvironmentReference where
  Namespace : String := ""
  Name : String := ""
  deriving DecidableEq, Repr

/-- Modelled from the spec: `fission.PackageStatus`, `{buildStatus, buildLog}`. -/
structure PackageStatus where
  BuildStatus : BuildStatus := BuildStatus.succeeded
  BuildLog : String := ""
  deriving DecidableEq, Repr

/-- Modelled from the spec: `fission.PackageSpec` (its declaration is not among
the sources): environment reference, the two archives, status, description. -/
structure PackageSpec where
  Environment : EnvironmentReference := {}
  Source : Archive := {}
  Deployment : Archive := {}
  Status : PackageStatus := {}
  Description : String := ""
  deriving DecidableEq, Repr

/-- Modelled from the spec: `tpr.Package`, metadata plus spec. -/
structure Package where
  Metadata : ObjectMeta := {}
  Spec : PackageSpec := {}
  deriving DecidableEq, Repr

/-- Modelled from the spec: `fission.PackageRef`, the reference a function
holds to its package: `{namespace, name, resourceVersion}`. -/
structure PackageRef where
  Namespace : String := ""
  Name : String := ""
  ResourceVersion : String := ""
  deriving DecidableEq, Repr

/-- Modelled from the spec: `fission.FunctionPackageRef`, the package reference
together with the entry point name inside the package. -/
structure FunctionPackageRef where
  PackageRef : PackageRef := {}
  FunctionName : String := ""
  deriving DecidableEq, Repr

/-- Modelled from the spec: `fission.FunctionSpec`, restricted to the
environment and the package reference. -/
structure FunctionSpec where
  Environment : EnvironmentReference := {}
  Package : FunctionPackageRef := {}
  deriving DecidableEq, Repr

/-- Modelled from the spec: `tpr.Function`, metadata plus spec. -/
structure Function where
  Metadata : ObjectMeta := {}
  Spec : FunctionSpec := {}
  deriving DecidableEq, Repr

/-- The constant `api.NamespaceDefault` of the orchestration platform. -/
def NamespaceDefault : String := "default"

/-! ## Local file system -/

/-- An absolute, cleaned path: the list of its components below the root. -/
abbrev Path := List String

/-- A regular file: its bytes, and whether the process may read it. -/
structure File where
  data : Bytes
  readable : Bool
  deriving DecidableEq, Repr, Inhabited

/-- The local file system: the directories that exist (the root always does)
and the regular files with their contents. -/
structure FS where
  dirs : List Path
  files : List (Path × File)
  deriving DecidableEq, Repr

/-- Split a string at every path separator. -/
def splitSep : List Char → List (List Char)
  | [] => [[]]
  | c :: cs =>
    if c = '/' then [] :: splitSep cs
    else
      match splitSep cs with
      | [] => [[c]]
      | x :: xs => (c :: x) :: xs

/-- The components of a path string, empty ones included. -/
def components (s : String) : List String :=
  (splitSep s.data).map String.mk

/-- One step of `filepath.Clean` on a rooted path: empty and `.` elements are
dropped, `..` removes the element before it (and is dropped at the root). -/
def cleanStep (stack : Path) (c : String) : Path :=
  if c = "" ∨ c = "." then stack
  else if c = ".." then stack.dropLast
  else stack ++ [c]

/-- `filepath.Clean` on the components of a rooted path. -/
def clean (cs : List String) : Path :=
  cs.foldl cleanStep []

/-- `filepath.Join(p, elem)`: the elements are joined with the separator and
the result is cleaned. -/
def Join (p : Path) (elem : String) : Path :=
  clean (p ++ components elem)

def FS.isDir (fs : FS) (p : Path) : Bool :=
  p == [] || fs.dirs.contains p

def FS.lookup (fs : FS) (p : Path) : Option File :=
  (fs.files.find? (fun e => e.1 == p)).map (fun e => e.2)

/-- The files that lie directly in directory `d`. -/
def FS.filesIn (fs : FS) (d : Path) : List (Path × File) :=
  fs.files.filter (fun e => e.1 != [] && e.1.dropLast == d)

/-- `os.Stat(p).Size()`.  Only regular files are given a size; every other
path is reported as missing. -/
def FS.stat (fs : FS) (p : Path) : Except String Int :=
  match fs.lookup p with
  | some f => .ok (f.data.length : Int)
  | none => .error "no such file or directory"

/-- `ioutil.ReadFile(p)`. -/
def FS.readFile (fs : FS) (p : Path) : Except String Bytes :=
  match fs.lookup p with
  | some f => if f.readable then .ok f.data else .error "permission denied"
  | none => .error "no such file or directory"

/-- The longest path element the system accepts, in bytes: `NAME_MAX` of
Linux. -/
def NAME_MAX : Nat := 255

/-- The size of the longest path string with its terminator, in bytes:
`PATH_MAX` of Linux. -/
def PATH_MAX : Nat := 4096

/-- The size in bytes of the path string: every element with the separator
before it. -/
def pathBytes (p : Path) : Nat :=
  (p.map (fun c => c.utf8ByteSize + 1)).sum

/-- The error with which the system refuses a path whatever is on the disk: an
element that holds a NUL byte (`EINVAL`), an element longer than `NAME_MAX`
or a path that does not fit in `PATH_MAX` (`ENAMETOOLONG`). -/
def pathError (p : Path) : Option String :=
  if p.any (fun c => c.data.contains (Char.ofNat 0)) then some "invalid argument"
  else if p.any (fun c => decide (NAME_MAX < c.utf8ByteSize)) || decide (PATH_MAX ≤ pathBytes p)
  then some "file name too long"
  else none

/-- `os.Mkdir(p, perm)`: the path must be one the system accepts, the parent
must exist and `p` must not. -/
def FS.mkdir (fs : FS) (p : Path) : Except String FS :=
  match pathError p with
  | some e => .error e
  | none =>
    if fs.isDir p || (fs.lookup p).isSome then .error "file exists"
    else if !fs.isDir p.dropLast then .error "no such file or directory"
    else .ok { fs with dirs := p :: fs.dirs }

/-- `ioutil.WriteFile(p, data, perm)`: creates or truncates the file `p` in
an existing directory; the path must be one the system accepts. -/
def FS.writeFile (fs : FS) (p : Path) (data : Bytes) : Except String FS :=
  match pathError p with
  | some e => .error e
  | none =>
    if fs.isDir p then .error "is a directory"
    else if !fs.isDir p.dropLast then .error "no such file or directory"
    else .ok { fs with files := (p, ⟨data, true⟩) :: fs.files.filter (fun e => e.1 != p) }

/-- `os.Rename(old, new)` for a regular file `old`: it replaces a regular
file at `new`, and fails when `new` is not a path the system accepts, is a
directory, or lies in a directory that does not exist. -/
def FS.rename (fs : FS) (old new : Path) : Except String FS :=
  match fs.lookup old with
  | none => .error "no such file or directory"
  | some f =>
    match pathError new with
    | some e => .error e
    | none =>
      if fs.isDir new then .error "file exists"
      else if !fs.isDir new.dropLast then .error "no such file or directory"
      else .ok { fs with
        files := (new, f) :: fs.files.filter (fun e => e.1 != old && e.1 != new) }

/-- Modelled from the spec: `archiver.Zip.Match` of the third-party archiver
library on the contents of a file: "inspects the file's magic bytes", the zip
signature `PK\x03\x04`. -/
def zipMagic (b : Bytes) : Bool :=
  b.take 4 == [0x50, 0x4B, 0x03, 0x04]

/-! ## The world the client runs in -/

/-- Modelled from the spec: the records held by the resource store behind the
controller (the "resource client" collaborator), with the counter from which
resource versions are stamped ("incremented on each write"). -/
structure Store where
  packages : List Package
  functions : List Function
  version : Nat
  deriving DecidableEq, Repr

/-- Everything outside the process: the local file system, the working and
temporary directories, the source of fresh identifiers, the resource store,
the storage service, and the script of transport failures.  Each remote call
consumes the head of `faults`; `some e` makes that call fail with error `e`,
`none` (or an exhausted script) lets the service answer. -/
structure World where
  fs : FS
  cwd : Path
  tempDir : Path
  uuid : Nat → String
  uuidCount : Nat
  store : Store
  archives : List (String × Bytes)
  getUrl : String → String → String
  requestURI : String → Except String String
  httpGet : String → Except String Bytes
  faults : List (Option String)

/-- What a run lets the outside observe, in order: terminal output and the
remote calls it issued, each with the reply it got. -/
inductive Event where
  | stdout (s : String)
  | stderr (s : String)
  | packageCreate (pkg : Package) (reply : ObjectMeta) (err : Option String)
  | packageGet (m : ObjectMeta) (reply : Package) (err : Option String)
  | packageUpdate (pkg : Package) (reply : ObjectMeta) (err : Option String)
  | packageDelete (m : ObjectMeta) (err : Option String)
  | functionList (reply : List Function) (err : Option String)
  | functionUpdate (fn : Function) (reply : ObjectMeta) (err : Option String)
  | upload (url : String) (fileName : String) (id : String) (err : Option String)
  | download (url : String) (err : Option String)
  deriving DecidableEq, Repr

/-- Whether the event is a call that writes to the resource store or to the
storage service. -/
def Event.mutates : Event → Bool
  | Event.packageCreate _ _ _ => true
  | Event.packageUpdate _ _ _ => true
  | Event.packageDelete _ _ => true
  | Event.functionUpdate _ _ _ => true
  | Event.upload _ _ _ _ => true
  | _ => false

/-- The package a `PackageCreate` call was given. -/
def Event.createdPackage : Event → Option Package
  | Event.packageCreate pkg _ _ => some pkg
  | _ => none

/-- The function record a `FunctionUpdate` call was given. -/
def Event.updatedFunction : Event → Option Function
  | Event.functionUpdate fn _ _ => some fn
  | _ => none

/-- The metadata a successful `PackageUpdate` call returned. -/
def Event.newPackageMeta : Event → Option ObjectMeta
  | Event.packageUpdate _ m none => some m
  | _ => none

/-- Whether the event is a remote call that came back with an error. -/
def Event.failed : Event → Bool
  | Event.packageCreate _ _ (some _) => true
  | Event.packageGet _ _ (some _) => true
  | Event.packageUpdate _ _ (some _) => true
  | Event.packageDelete _ (some _) => true
  | Event.functionList _ (some _) => true
  | Event.functionUpdate _ _ (some _) => true
  | Event.upload _ _ _ (some _) => true
  | Event.download _ (some _) => true
  | _ => false

/-- How a run ends: the function returns, or the process is terminated by
`os.Exit` with the given status. -/
inductive Outcome (α : Type) where
  | ret (a : α)
  | exit (code : Int)
  deriving DecidableEq, Repr

structure Result (α : Type) where
  out : Outcome α
  world : World
  events : List Event

/-- A Go function with effects on the world. -/
def M (α : Type) : Type := World → Result α

def M.pure {α : Type} (a : α) : M α :=
  fun w => ⟨Outcome.ret a, w, []⟩

def M.bind {α β : Type} (m : M α) (f : α → M β) : M β :=
  fun w =>
    match m w with
    | ⟨Outcome.ret a, w1, es⟩ =>
      match f a w1 with
      | ⟨o, w2, es2⟩ => ⟨o, w2, es ++ es2⟩
    | ⟨Outcome.exit c, w1, es⟩ => ⟨Outcome.exit c, w1, es⟩

instance : Monad M where
  pure := M.pure
  bind := M.bind

def emit (e : Event) : M Unit :=
  fun w => ⟨Outcome.ret (), w, [e]⟩

/-- The call `os.Exit(code)`. -/
def osExit {α : Type} (code : Int) : M α :=
  fun w => ⟨Outcome.exit code, w, []⟩

def getWorld : M World :=
  fun w => ⟨Outcome.ret w, w, []⟩

def setFS (fs : FS) : M Unit :=
  fun w => ⟨Outcome.ret (), { w with fs := fs }, []⟩

def setStore (s : Store) : M Unit :=
  fun w => ⟨Outcome.ret (), { w with store := s }, []⟩

def addArchive (id : String) (b : Bytes) : M Unit :=
  fun w => ⟨Outcome.ret (), { w with archives := (id, b) :: w.archives }, []⟩

/-- The next value of `uuid.NewV4().String()`. -/
def newUuid : M String :=
  fun w => ⟨Outcome.ret (w.uuid w.uuidCount), { w with uuidCount := w.uuidCount + 1 }, []⟩

def nextFault : List (Option String) → Option String
  | [] => none
  | f :: _ => f

/-- Take the next entry of the failure script. -/
def popFault : M (Option String) :=
  fun w => ⟨Outcome.ret (nextFault w.faults), { w with faults := w.faults.tail }, []⟩

/-- The file a name given on the command line denotes: rooted names as they
are, the others below the working directory. -/
def resolve (cwd : Path) (name : String) : Path :=
  if name.data.head? = some '/' then clean (components name)
  else clean (cwd ++ components name)

/-- A Go slice, which may be nil. -/
abbrev Slice (α : Type) := Option (List α)

/-- The builtin `len` on a slice; the length of nil is 0. -/
def Slice.len {α : Type} : Slice α → Nat
  | none => 0
  | some l => l.length

/-- The elements a `range` loop visits; none for nil. -/
def Slice.elems {α : Type} : Slice α → List α
  | none => []
  | some l => l

/-! ## The resource client and the storage service -/

def sameKey (a b : ObjectMeta) : Bool :=
  a.Name == b.Name && a.Namespace == b.Namespace

def Store.findPackage (s : Store) (m : ObjectMeta) : Option Package :=
  s.packages.find? (fun p => sameKey p.Metadata m)

def Store.findFunction (s : Store) (m : ObjectMeta) : Option Function :=
  s.functions.find? (fun f => sameKey f.Metadata m)

/-- The resource version the next write is stamped with. -/
def Store.stamp (s : Store) : String :=
  toString (s.version + 1)

/-- Modelled from the spec: `Create` of the resource client for packages; the
record is stored under its name with a fresh resource version, a second record
of the same name is refused. -/
def Store.packageCreate (s : Store) (pkg : Package) : Except String ObjectMeta × Store :=
  match s.findPackage pkg.Metadata with
  | some _ => (.error "already exists", s)
  | none =>
    let m : ObjectMeta := { pkg.Metadata with ResourceVersion := s.stamp }
    (.ok m, { s with packages := s.packages ++ [{ pkg with Metadata := m }],
                     version := s.version + 1 })

/-- Modelled from the spec: `Get` of the resource client for packages,
"erroring on not-found". -/
def Store.packageGet (s : Store) (m : ObjectMeta) : Except String Package :=
  match s.findPackage m with
  | some p => .ok p
  | none => .error "not found"

/-- Modelled from the spec: `Update` of the resource client for packages; the
stored record of that name is replaced and gets a new resource version. -/
def Store.packageUpdate (s : Store) (pkg : Package) : Except String ObjectMeta × Store :=
  match s.findPackage pkg.Metadata with
  | none => (.error "not found", s)
  | some _ =>
    let m : ObjectMeta := { pkg.Metadata with ResourceVersion := s.stamp }
    (.ok m, { s with
      packages := s.packages.map
        (fun p => if sameKey p.Metadata pkg.Metadata then { pkg with Metadata := m } else p),
      version := s.version + 1 })

/-- Modelled from the spec: `Delete` of the resource client for packages. -/
def Store.packageDelete (s : Store) (m : ObjectMeta) : Except String Unit × Store :=
  match s.findPackage m with
  | none => (.error "not found", s)
  | some _ =>
    (.ok (), { s with packages := s.packages.filter (fun p => !sameKey p.Metadata m) })

/-- Modelled from the spec: `Update` of the resource client for functions. -/
def Store.functionUpdate (s : Store) (fn : Function) : Except String ObjectMeta × Store :=
  match s.findFunction fn.Metadata with
  | none => (.error "not found", s)
  | some _ =>
    let m : ObjectMeta := { fn.Metadata with ResourceVersion := s.stamp }
    (.ok m, { s with
      functions := s.functions.map
        (fun f => if sameKey f.Metadata fn.Metadata then { fn with Metadata := m } else f),
      version := s.version + 1 })

/-- The controller client, `client.Client`: it only carries the server URL. -/
structure Client where
  Url : String
  deriving DecidableEq, Repr

/-- Modelled from the spec: `client.PackageCreate`. -/
def Client.PackageCreate (_c : Client) (pkg : Package) : M (ObjectMeta × Option String) := do
  match (← popFault) with
  | some e =>
    emit (Event.packageCreate pkg {} (some e))
    pure ({}, some e)
  | none =>
    let w ← getWorld
    match w.store.packageCreate pkg with
    | (.ok m, s) =>
      setStore s
      emit (Event.packageCreate pkg m none)
      pure (m, none)
    | (.error e, _) =>
      emit (Event.packageCreate pkg {} (some e))
      pure ({}, some e)

/-- Modelled from the spec: `client.PackageGet`. -/
def Client.PackageGet (_c : Client) (m : ObjectMeta) : M (Package × Option String) := do
  match (← popFault) with
  | some e =>
    emit (Event.packageGet m {} (some e))
    pure ({}, some e)
  | none =>
    let w ← getWorld
    match w.store.packageGet m with
    | .ok p =>
      emit (Event.packageGet m p none)
      pure (p, none)
    | .error e =>
      emit (Event.packageGet m {} (some e))
      pure ({}, some e)

/-- Modelled from the spec: `client.PackageUpdate`. -/
def Client.PackageUpdate (_c : Client) (pkg : Package) : M (ObjectMeta × Option String) := do
  match (← popFault) with
  | some e =>
    emit (Event.packageUpdate pkg {} (some e))
    pure ({}, some e)
  | none =>
    let w ← getWorld
    match w.store.packageUpdate pkg with
    | (.ok m, s) =>
      setStore s
      emit (Event.packageUpdate pkg m none)
      pure (m, none)
    | (.error e, _) =>
      emit (Event.packageUpdate pkg {} (some e))
      pure ({}, some e)

/-- Modelled from the spec: `client.PackageDelete`. -/
def Client.PackageDelete (_c : Client) (m : ObjectMeta) : M (Option String) := do
  match (← popFault) with
  | some e =>
    emit (Event.packageDelete m (some e))
    pure (some e)
  | none =>
    let w ← getWorld
    match w.store.packageDelete m with
    | (.ok _, s) =>
      setStore s
      emit (Event.packageDelete m none)
      pure none
    | (.error e, _) =>
      emit (Event.packageDelete m (some e))
      pure (some e)

/-- Modelled from the spec: `client.FunctionList`, all function records. -/
def Client.FunctionList (_c : Client) : M (List Function × Option String) := do
  match (← popFault) with
  | some e =>
    emit (Event.functionList [] (some e))
    pure ([], some e)
  | none =>
    let w ← getWorld
    emit (Event.functionList w.store.functions none)
    pure (w.store.functions, none)

/-- Modelled from the spec: `client.FunctionUpdate`. -/
def Client.FunctionUpdate (_c : Client) (fn : Function) : M (ObjectMeta × Option String) := do
  match (← popFault) with
  | some e =>
    emit (Event.functionUpdate fn {} (some e))
    pure ({}, some e)
  | none =>
    let w ← getWorld
    match w.store.functionUpdate fn with
    | (.ok m, s) =>
      setStore s
      emit (Event.functionUpdate fn m none)
      pure (m, none)
    | (.error e, _) =>
      emit (Event.functionUpdate fn {} (some e))
      pure ({}, some e)

/-- The storage service client made by `storageSvcClient.MakeClient(u)`. -/
structure StorageClient where
  url : String
  deriving DecidableEq, Repr

/-- Modelled from the spec: `upload(path) -> contentId` of the storage
service client: the file is read and stored under a fresh identifier. -/
def StorageClient.Upload (c : StorageClient) (fileName : String) : M (String × Option String) := do
  match (← popFault) with
  | some e =>
    emit (Event.upload c.url fileName "" (some e))
    pure ("", some e)
  | none =>
    let w ← getWorld
    match w.fs.readFile (resolve w.cwd fileName) with
    | .error e =>
      emit (Event.upload c.url fileName "" (some e))
      pure ("", some e)
    | .ok b =>
      let id ← newUuid
      addArchive id b
      emit (Event.upload c.url fileName id none)
      pure (id, none)

/-- Modelled from the spec: `urlFor(contentId) -> absoluteUrl` of the storage
service client; how the URL is formed is left to the world. -/
def StorageClient.GetUrl (c : StorageClient) (id : String) : M String := do
  let w ← getWorld
  pure (w.getUrl c.url id)

/-- Modelled from the spec: the retrieval behind `http.Get` and
`ioutil.ReadAll` in `downloadUrl`; what a URL serves is left to the world. -/
def httpGet (url : String) : M (Bytes × Option String) := do
  match (← popFault) with
  | some e =>
    emit (Event.download url (some e))
    pure ([], some e)
  | none =>
    let w ← getWorld
    match w.httpGet url with
    | .ok b =>
      emit (Event.download url none)
      pure (b, none)
    | .error e =>
      emit (Event.download url (some e))
      pure ([], some e)

/-! ## Library calls on the local machine -/

/-- The builtin `len` on a string: its size in bytes. -/
def len (s : String) : Nat := s.utf8ByteSize

/-- The call `strings.TrimSuffix(s, suffix)`. -/
def TrimSuffix (s suffix : String) : String :=
  if suffix.data.isSuffixOf s.data then
    String.mk (s.data.take (s.data.length - suffix.data.length))
  else s

/-- The test `strings.Index(s, p) == 0`. -/
def startsWith (s p : String) : Bool :=
  p.data.isPrefixOf s.data

/-- The call `strings.ToLower(s)`. -/
def ToLower (s : String) : String :=
  String.mk (s.data.map Char.toLower)

def osStat (filePath : String) : M (Int × Option String) := do
  let w ← getWorld
  match w.fs.stat (resolve w.cwd filePath) with
  | .ok n => pure (n, none)
  | .error e => pure (0, some e)

def ioutilReadFile (filePath : String) : M (Bytes × Option String) := do
  let w ← getWorld
  match w.fs.readFile (resolve w.cwd filePath) with
  | .ok b => pure (b, none)
  | .error e => pure ([], some e)

def osMkdir (p : Path) : M (Option String) := do
  let w ← getWorld
  match w.fs.mkdir p with
  | .ok fs =>
    setFS fs
    pure none
  | .error e => pure (some e)

def ioutilWriteFile (p : Path) (data : Bytes) : M (Option String) := do
  let w ← getWorld
  match w.fs.writeFile p data with
  | .ok fs =>
    setFS fs
    pure none
  | .error e => pure (some e)

def osRename (old new : Path) : M (Option String) := do
  let w ← getWorld
  match w.fs.rename old new with
  | .ok fs =>
    setFS fs
    pure none
  | .error e => pure (some e)

/-- The call `archiver.Zip.Match(path)` on a path that does not end in `.zip`
(here it always ends in `.tmp`): the signature test on the file, false when
the file cannot be opened. -/
def zipMatch (p : Path) : M Bool := do
  let w ← getWorld
  match w.fs.readFile p with
  | .ok b => pure (zipMagic b)
  | .error _ => pure false

/-! ## fission/common.go -/

def fatal (msg : String) : M Unit := do
  emit (Event.stderr (msg ++ "\n"))
  osExit 1

def getClient (serverUrl : String) : M Client := do
  if len serverUrl == 0 then
    fatal "Need --server or FISSION_URL set to your fission server."
  let isHTTPS := startsWith serverUrl "https://"
  let isHTTP := startsWith serverUrl "http://"
  if !(isHTTP || isHTTPS) then
    pure ⟨"http://" ++ serverUrl⟩
  else
    pure ⟨serverUrl⟩

def checkErr (err : Option String) (msg : String) : M Unit :=
  match err with
  | some e => fatal ("Failed to " ++ msg ++ ": " ++ e)
  | none => pure ()

def fileSize (filePath : String) : M Int := do
  let (info, err) ← osStat filePath
  checkErr err ("stat " ++ filePath)
  pure info

def getContents (filePath : String) : M Bytes := do
  let (code, err) ← ioutilReadFile filePath
  checkErr err ("read " ++ filePath)
  pure code

/-- The function `createArchive`; the constant `fission.ArchiveLiteralSizeLimit`,
declared outside the sources, is the first argument. -/
def createArchive (ArchiveLiteralSizeLimit : Int) (client : Client) (fileName : String) :
    M Archive := do
  let archive : Archive := {}
  if (← fileSize fileName) < ArchiveLiteralSizeLimit then
    let contents ← getContents fileName
    pure { archive with Type_ := ArchiveType.literal, Literal := contents }
  else
    let u := TrimSuffix client.Url "/" ++ "/proxy/storage"
    let ssClient : StorageClient := ⟨u⟩
    let (id, err) ← ssClient.Upload fileName
    checkErr err ("upload file " ++ fileName)
    let archiveUrl ← ssClient.GetUrl id
    pure { archive with Type_ := ArchiveType.url, URL := archiveUrl }

def createPackage (ArchiveLiteralSizeLimit : Int) (client : Client)
    (envName srcPkgName deployPkgName description : String) : M ObjectMeta := do
  let pkgSpec : PackageSpec :=
    { Environment := { Namespace := NamespaceDefault, Name := envName },
      Description := description }
  let pkgStatus : BuildStatus := BuildStatus.succeeded
  let pkgSpec ←
    if len deployPkgName > 0 then do
      let a ← createArchive ArchiveLiteralSizeLimit client deployPkgName
      if len srcPkgName > 0 then
        emit (Event.stdout
          "Deployment may be overwritten by builder manager after source package compilation\n")
      pure { pkgSpec with Deployment := a }
    else pure pkgSpec
  let (pkgSpec, pkgStatus) ←
    if len srcPkgName > 0 then do
      let a ← createArchive ArchiveLiteralSizeLimit client srcPkgName
      pure ({ pkgSpec with Source := a }, BuildStatus.pending)
    else pure (pkgSpec, pkgStatus)
  let pkgSpec := { pkgSpec with Status := { BuildStatus := pkgStatus } }
  let pkgName := ToLower (← newUuid)
  let pkg : Package :=
    { Metadata := { Name := pkgName, Namespace := NamespaceDefault },
      Spec := pkgSpec }
  let (pkgMetadata, err) ← client.PackageCreate pkg
  checkErr err "create package"
  emit (Event.stdout ("package '" ++ pkgMetadata.Name ++ "' created\n"))
  pure pkgMetadata

/-! ## fission/package.go -/

def getFunctionsByPackage (client : Client) (pkgName : String) :
    M (Slice Function × Option String) := do
  let (fnList, err) ← client.FunctionList
  match err with
  | some e => pure (none, some e)
  | none =>
    let fns : List Function := fnList.foldl
      (fun fns fn => if fn.Spec.Package.PackageRef.Name = pkgName then fns ++ [fn] else fns) []
    pure (some fns, none)

def downloadUrl (client : Client) (fileUrl : String) (localPath : Path) :
    M (Option String) := do
  let w ← getWorld
  match w.requestURI fileUrl with
  | .error e => pure (some e)
  | .ok u =>
    let fileDownloadUrl := TrimSuffix client.Url "/" ++ "/proxy/storage" ++ u
    let (body, err) ← httpGet fileDownloadUrl
    match err with
    | some e => pure (some e)
    | none =>
      match (← ioutilWriteFile localPath body) with
      | some e => pure (some e)
      | none => pure none

def downloadArchive (client : Client) (archive : Archive) (fileName : String) :
    M (Option String) := do
  let tmpDir ← newUuid
  let tmpPath := Join (← getWorld).tempDir tmpDir
  match (← osMkdir tmpPath) with
  | some e => pure (some e)
  | none =>
    let path := Join tmpPath (fileName ++ ".tmp")
    let err ←
      if archive.Type_ = ArchiveType.literal then
        ioutilWriteFile path archive.Literal
      else
        downloadUrl client archive.URL path
    match err with
    | some e => pure (some e)
    | none =>
      let newPath :=
        if (← zipMatch path) then Join tmpPath (fileName ++ ".zip")
        else Join tmpPath fileName
      match (← osRename path newPath) with
      | some e => pure (some e)
      | none => pure none

/-- The flags of a command line, `cli.Context`: the global `--server` and the
flags of the `package` commands. -/
structure Context where
  server : String := ""
  name : String := ""
  env : String := ""
  desc : String := ""
  src : String := ""
  deploy : String := ""
  target : String := ""
  f : Bool := false
  deriving DecidableEq, Repr

def pkgCreate (ArchiveLiteralSizeLimit : Int) (c : Context) : M (Option String) := do
  let client ← getClient c.server
  let envName := c.env
  if len envName == 0 then
    fatal "Need --env argument."
  let description := c.desc
  let srcArchiveName := c.src
  let deployArchiveName := c.deploy
  if len srcArchiveName == 0 && len deployArchiveName == 0 then
    fatal "Need --src to specify source archive, or use --deploy to specify deployment archive."
  let _ ← createPackage ArchiveLiteralSizeLimit client envName srcArchiveName
    deployArchiveName description
  pure none

/-- The function record with the resource version of its package reference
replaced, everything else kept. -/
def Function.withPackageVersion (fn : Function) (v : String) : Function :=
  { fn with Spec := { fn.Spec with Package := { fn.Spec.Package with
      PackageRef := { fn.Spec.Package.PackageRef with ResourceVersion := v } } } }

/-- No transport failure is scheduled: every remote call reaches its service. -/
def NoFaults (fs : List (Option String)) : Prop :=
  ∀ e, some e ∉ fs

/-- The loop that closes `pkgUpdate`: every function of the list gets the new
resource version in its package reference and is written back. -/
def updateFunctions (client : Client) (newPkgMeta : ObjectMeta) : List Function → M Unit
  | [] => pure ()
  | fn :: rest => do
    let fn : Function :=
      { fn with Spec := { fn.Spec with Package := { fn.Spec.Package with
          PackageRef := { fn.Spec.Package.PackageRef with
            ResourceVersion := newPkgMeta.ResourceVersion } } } }
    let (_, err) ← client.FunctionUpdate fn
    checkErr err "update function"
    updateFunctions client newPkgMeta rest

def pkgUpdate (ArchiveLiteralSizeLimit : Int) (c : Context) : M (Option String) := do
  let client ← getClient c.server
  let pkgName := c.name
  if len pkgName == 0 then
    fatal "Need --name argument."
  let force := c.f
  let envName := c.env
  let description := c.desc
  let srcArchiveName := c.src
  let deployArchiveName := c.deploy
  if len srcArchiveName == 0 && len deployArchiveName == 0 &&
      len envName == 0 && len description == 0 then
    fatal "Need --env or --desc or --src or --deploy or --desc argument."
  let (pkg, err) ← client.PackageGet { Namespace := NamespaceDefault, Name := pkgName }
  checkErr err "get package"
  let (fnList, err) ← getFunctionsByPackage client pkgName
  checkErr err "get function list"
  if !force && fnList.len > 0 then
    fatal "Package is used by multiple functions, use -f to force update"
  let needToBuild := false
  let (pkg, needToBuild) :=
    if len envName > 0 then
      ({ pkg with Spec := { pkg.Spec with
          Environment := { pkg.Spec.Environment with Name := envName } } }, true)
    else (pkg, needToBuild)
  let (pkg, needToBuild) ←
    if len srcArchiveName > 0 then do
      let srcArchiveMetadata ← createArchive ArchiveLiteralSizeLimit client srcArchiveName
      pure ({ pkg with Spec := { pkg.Spec with Source := srcArchiveMetadata } }, true)
    else pure (pkg, needToBuild)
  let pkg ←
    if len deployArchiveName > 0 then do
      let deployArchiveMetadata ← createArchive ArchiveLiteralSizeLimit client deployArchiveName
      pure { pkg with Spec := { pkg.Spec with Deployment := deployArchiveMetadata } }
    else pure pkg
  let pkg :=
    if len description > 0 then
      { pkg with Spec := { pkg.Spec with Description := description } }
    else pkg
  let pkg :=
    if needToBuild then
      { pkg with Spec := { pkg.Spec with Status := { pkg.Spec.Status with
          BuildStatus := BuildStatus.pending } } }
    else pkg
  let (newPkgMeta, err) ← client.PackageUpdate pkg
  checkErr err "update package"
  updateFunctions client newPkgMeta fnList.elems
  pure err

def pkgGet (c : Context) : M (Option String) := do
  let client ← getClient c.server
  let pkgName := c.name
  if len pkgName == 0 then
    fatal "Need name of package, use --name"
  let targetName := c.target
  if len targetName == 0 then
    emit (Event.stdout "Empty target file name, used package name instead\n")
  let (pkg, err) ← client.PackageGet { Namespace := NamespaceDefault, Name := pkgName }
  match err with
  | some e => pure (some e)
  | none =>
    let targetName := if len targetName == 0 then pkg.Metadata.Name else targetName
    if pkg.Spec.Source.Type_ ≠ ArchiveType.empty then
      match (← downloadArchive client pkg.Spec.Source targetName) with
      | some e => fatal ("Error downloading source archive: " ++ e)
      | none => pure ()
    if pkg.Spec.Deployment.Type_ ≠ ArchiveType.empty then
      match (← downloadArchive client pkg.Spec.Deployment targetName) with
      | some e => fatal ("Error downloading deployment archive: " ++ e)
      | none => pure ()
    pure none

def pkgDelete (c : Context) : M (Option String) := do
  let client ← getClient c.server
  let pkgName := c.name
  if len pkgName == 0 then
    emit (Event.stdout "Need --name argument.\n")
    pure none
  else
    let force := c.f
    let (fnList, _) ← getFunctionsByPackage client pkgName
    if !force && fnList.len > 0 then
      fatal "Package is used by multiple functions, use -f to force delete"
    let err ← client.PackageDelete { Namespace := NamespaceDefault, Name := pkgName }
    match err with
    | some e => pure (some e)
    | none =>
      emit (Event.stdout ("Package " ++ pkgName ++ " is deleted\n"))
      pure none

/-! ## Remainders of `pkgUpdate` and `createPackage`

The two long functions are cut at the places where their proofs are cut; each
remainder is the text of the function from that place on, and the functions
are equal to their beginning followed by the remainder (`pkgUpdate_eq`,
`createPackage_eq`). -/

/-- The remainder of `pkgUpdate` from the call of `PackageUpdate` on: the
record is written and the collected functions are re-pointed. -/
def pkgUpdatePersist (client : Client) (pkg : Package) (fnList : Slice Function) :
    M (Option String) := do
  let (newPkgMeta, err) ← client.PackageUpdate pkg
  checkErr err "update package"
  updateFunctions client newPkgMeta fnList.elems
  pure err

/-- The remainder of `pkgUpdate` after the source archive has been handled:
`pkg` and `needToBuild` are the values of these variables at that point. -/
def pkgUpdateAfterSrc (ArchiveLiteralSizeLimit : Int) (client : Client) (c : Context)
    (pkg : Package) (needToBuild : Bool) (fnList : Slice Function) : M (Option String) := do
  let pkg ←
    if len c.deploy > 0 then do
      let deployArchiveMetadata ← createArchive ArchiveLiteralSizeLimit client c.deploy
      pure { pkg with Spec := { pkg.Spec with Deployment := deployArchiveMetadata } }
    else pure pkg
  let pkg :=
    if len c.desc > 0 then
      { pkg with Spec := { pkg.Spec with Description := c.desc } }
    else pkg
  let pkg :=
    if needToBuild then
      { pkg with Spec := { pkg.Spec with Status := { pkg.Spec.Status with
          BuildStatus := BuildStatus.pending } } }
    else pkg
  pkgUpdatePersist client pkg fnList

/-- The remainder of `pkgUpdate` after the check of the force flag: `pkg` is
the record read by `PackageGet`, `fnList` the functions that use it. -/
def pkgUpdateApply (ArchiveLiteralSizeLimit : Int) (client : Client) (c : Context)
    (pkg : Package) (fnList : Slice Function) : M (Option String) := do
  let needToBuild := false
  let (pkg, needToBuild) :=
    if len c.env > 0 then
      ({ pkg with Spec := { pkg.Spec with
          Environment := { pkg.Spec.Environment with Name := c.env } } }, true)
    else (pkg, needToBuild)
  let (pkg, needToBuild) ←
    if len c.src > 0 then do
      let srcArchiveMetadata ← createArchive ArchiveLiteralSizeLimit client c.src
      pure ({ pkg with Spec := { pkg.Spec with Source := srcArchiveMetadata } }, true)
    else pure (pkg, needToBuild)
  pkgUpdateAfterSrc ArchiveLiteralSizeLimit client c pkg needToBuild fnList

/-- The remainder of `createPackage` after both archives have been handled. -/
def createPackagePersist (client : Client) (pkgSpec : PackageSpec) (pkgStatus : BuildStatus) :
    M ObjectMeta := do
  let pkgSpec := { pkgSpec with Status := { BuildStatus := pkgStatus } }
  let pkgName := ToLower (← newUuid)
  let pkg : Package :=
    { Metadata := { Name := pkgName, Namespace := NamespaceDefault },
      Spec := pkgSpec }
  let (pkgMetadata, err) ← client.PackageCreate pkg
  checkErr err "create package"
  emit (Event.stdout ("package '" ++ pkgMetadata.Name ++ "' created\n"))
  pure pkgMetadata

/-- The remainder of `createPackage` after the deployment archive has been
handled. -/
def createPackageAfterDeploy (ArchiveLiteralSizeLimit : Int) (client : Client)
    (srcPkgName : String) (pkgSpec : PackageSpec) : M ObjectMeta := do
  let pkgStatus : BuildStatus := BuildStatus.succeeded
  let (pkgSpec, pkgStatus) ←
    if len srcPkgName > 0 then do
      let a ← createArchive ArchiveLiteralSizeLimit client srcPkgName
      pure ({ pkgSpec with Source := a }, BuildStatus.pending)
    else pure (pkgSpec, pkgStatus)
  createPackagePersist client pkgSpec pkgStatus

/-! ## Predicates of the statements -/

/-- Events of calls that succeeded and are neither a package update nor a
function update. -/
def Quiet (es : List Event) : Prop :=
  ∀ e ∈ es, e.failed = false ∧ e.newPackageMeta = none ∧ e.updatedFunction = none

/-- The run returned without error, wrote the package once, and then wrote
exactly the functions `fns`, in order, each with the package's new resource
version in its package reference; no remote call failed. -/
def Repointed (r : Result (Option String)) (fns : List Function) : Prop :=
  r.out = Outcome.ret none ∧
  ∃ newMeta, r.events.filterMap Event.newPackageMeta = [newMeta] ∧
    r.events.filterMap Event.updatedFunction =
      fns.map (fun fn => fn.withPackageVersion newMeta.ResourceVersion) ∧
    ∀ e ∈ r.events, e.failed = false

/-- A name that is one path element: not empty, not `.` or `..`, and without
a path separator. -/
def PlainName (n : String) : Prop :=
  n ≠ "" ∧ n ≠ "." ∧ n ≠ ".." ∧ '/' ∉ n.data

/-- A cleaned path has no empty, `.` or `..` element. -/
def IsCleanPath (p : Path) : Prop :=
  ∀ c ∈ p, c ≠ "" ∧ c ≠ "." ∧ c ≠ ".."

/-- Every directory and every file of the file system lies in a directory
that exists. -/
def FS.WellFormed (fs : FS) : Prop :=
  (∀ d ∈ fs.dirs, fs.isDir d.dropLast = true) ∧
  (∀ e ∈ fs.files, fs.isDir e.1.dropLast = true)

/-! ## A small world for examples -/

def demoClient : Client := ⟨"http://controller"⟩

def demoFn1 : Function :=
  { Metadata := { Name := "fn1", Namespace := "default", ResourceVersion := "3" },
    Spec := { Environment := { Namespace := "default", Name := "python" },
              Package := { PackageRef := { Namespace := "default", Name := "pkg1",
                                           ResourceVersion := "5" },
                           FunctionName := "main" } } }

def demoFn2 : Function :=
  { Metadata := { Name := "fn2", Namespace := "default", ResourceVersion := "4" },
    Spec := { Environment := { Namespace := "default", Name := "python" },
              Package := { PackageRef := { Namespace := "default", Name := "pkg2",
                                           ResourceVersion := "6" },
                           FunctionName := "main" } } }

def demoPkg1 : Package :=
  { Metadata := { Name := "pkg1", Namespace := "default", ResourceVersion := "5" },
    Spec := { Environment := { Namespace := "default", Name := "python" },
              Deployment := { Type_ := ArchiveType.literal, Literal := [1, 2] },
              Status := { BuildStatus := BuildStatus.failed } } }

def demoFS : FS :=
  { dirs := [["tmp"], ["work"]],
    files := [(["work", "handler.py"], ⟨[1, 2, 3], true⟩),
              (["work", "bin.zip"], ⟨[0x50, 0x4B, 3, 4, 9, 9], true⟩),
              (["work", "empty"], ⟨[], true⟩)] }

/-- A world with one package used by one of two functions, three local files,
and no transport failure scheduled. -/
def demoWorld : World :=
  { fs := demoFS, cwd := ["work"], tempDir := ["tmp"],
    uuid := fun _ => "3F2A", uuidCount := 0,
    store := { packages := [demoPkg1], functions := [demoFn1, demoFn2], version := 7 },
    archives := [],
    getUrl := fun u id => u ++ "/archive?id=" ++ id,
    requestURI := fun s => Except.ok s,
    httpGet := fun _ => Except.error "connection refused",
    faults := [] }

/-- The same world, in which the next remote call fails in transport. -/
def demoWorldFailing : World :=
  { demoWorld with faults := [some "connection refused"] }

/-- The command `fission package delete --name pkg1`, without the force flag. -/
def demoDelete : Context :=
  { server := "controller", name := "pkg1", f := false }

/-- The command `fission package update --name pkg1 --src handler.py`. -/
def demoUpdate : Context :=
  { server := "controller", name := "pkg1", src := "handler.py", f := false }

/-- The command `fission package update --name pkg1 --src handler.py -f`. -/
def demoUpdateForce : Context :=
  { server := "controller", name := "pkg1", src := "handler.py", f := true }

/-- The demo world without `fn1`: no function uses `pkg1`. -/
def demoWorldFree : World :=
  { demoWorld with
    store := { packages := [demoPkg1], functions := [demoFn2], version := 7 } }

/-- The command `fission package update --name pkg1 --desc new`, without the
force flag. -/
def demoDescribe : Context :=
  { server := "controller", name := "pkg1", desc := "new", f := false }

/-- The package `createPackage` builds in the demo world from `handler.py` as
source and `bin.zip` as deployment. -/
def demoCreated : Package :=
  { Metadata := { Name := "3f2a", Namespace := "default" },
    Spec := { Environment := { Namespace := "default", Name := "python" },
              Source := { Type_ := ArchiveType.literal, Literal := [1, 2, 3] },
              Deployment := { Type_ := ArchiveType.literal, Literal := [0x50, 0x4B, 3, 4, 9, 9] },
              Status := { BuildStatus := BuildStatus.pending },
              Description := "d" } }

/-- The record `pkgUpdate` writes in the demo world for `demoUpdateForce`. -/
def demoUpdated : Package :=
  { demoPkg1 with
    Spec := { demoPkg1.Spec with
      Source := { Type_ := ArchiveType.literal, Literal := [1, 2, 3] },
      Status := { BuildStatus := BuildStatus.pending } } }

/-- The archive `createArchive` makes of `handler.py` in the demo world. -/
def demoArchive : Archive :=
  { Type_ := ArchiveType.literal, Literal := [1, 2, 3], URL := "" }

/-! ## Running the embedded functions -/
@[simp] theorem run_pure {α : Type} (a : α) (w : World) :
    (pure a : M α) w = ⟨Outcome.ret a, w, []⟩ := rfl

theorem run_bind {α β : Type} (m : M α) (f : α → M β) (w : World) :
    (m >>= f) w = M.bind m f w := rfl

theorem foldl_append_filter (p : String) (L acc : List Function) :
    L.foldl (fun fns fn => if fn.Spec.Package.PackageRef.Name = p then fns ++ [fn] else fns) acc
      = acc ++ L.filter (fun fn => fn.Spec.Package.PackageRef.Name = p) := by
  induction L generalizing acc with
  | nil => simp
  | cons fn rest ih =>
    by_cases h : fn.Spec.Package.PackageRef.Name = p
    · simp [List.foldl_cons, h, ih]
    · simp [List.foldl_cons, h, ih]

theorem run_fileSize (fileName : String) (w : World) (f : File)
    (hf : w.fs.lookup (resolve w.cwd fileName) = some f) :
    fileSize fileName w = ⟨Outcome.ret (f.data.length : Int), w, []⟩ := by
  simp [fileSize, osStat, FS.stat, getWorld, checkErr, run_bind, M.bind, M.pure, hf]

theorem run_getContents (fileName : String) (w : World) (f : File)
    (hf : w.fs.lookup (resolve w.cwd fileName) = some f) (hr : f.readable = true) :
    getContents fileName w = ⟨Outcome.ret f.data, w, []⟩ := by
  simp [getContents, ioutilReadFile, FS.readFile, getWorld, checkErr, run_bind, M.bind, M.pure,
    hf, hr]

theorem createArchive_run_by_size (L : Int) (client : Client) (fileName : String) (w : World)
    (f : File) (hf : w.fs.lookup (resolve w.cwd fileName) = some f) (hr : f.readable = true) :
    ((f.data.length : Int) < L →
      createArchive L client fileName w =
        ⟨Outcome.ret { Type_ := ArchiveType.literal, Literal := f.data, URL := "" }, w, []⟩) ∧
    (L ≤ (f.data.length : Int) → (∀ e, w.faults.head? ≠ some (some e)) →
      (createArchive L client fileName w).out =
        Outcome.ret { Type_ := ArchiveType.url, Literal := [],
                      URL := w.getUrl (TrimSuffix client.Url "/" ++ "/proxy/storage")
                        (w.uuid w.uuidCount) } ∧
      (createArchive L client fileName w).events =
        [Event.upload (TrimSuffix client.Url "/" ++ "/proxy/storage") fileName
          (w.uuid w.uuidCount) none] ∧
      (createArchive L client fileName w).world.archives =
        (w.uuid w.uuidCount, f.data) :: w.archives) := by
  constructor
  · intro hlt
    simp [createArchive, run_bind, M.bind, M.pure, run_fileSize fileName w f hf,
      run_getContents fileName w f hf hr, hlt]
  · intro hge hok
    have hnlt : ¬ ((f.data.length : Int) < L) := not_lt.mpr hge
    have hnf : nextFault w.faults = none := by
      rcases hw : w.faults with _ | ⟨o, rest⟩
      · rfl
      · cases o with
        | some e => exact absurd (by simp [hw]) (hok e)
        | none => rfl
    simp [createArchive, run_bind, M.bind, M.pure, run_fileSize fileName w f hf, hnlt,
      StorageClient.Upload, StorageClient.GetUrl, popFault, getWorld, hnf, FS.readFile, hf, hr,
      newUuid, addArchive, emit, checkErr]

theorem len_eq_zero (s : String) : len s = 0 ↔ s = "" := by
  rcases s with ⟨l⟩
  cases l with
  | nil => simp [len, String.utf8ByteSize, String.utf8ByteSize.go]
  | cons c cs =>
    have hc := Char.utf8Size_pos c
    simp [len, String.utf8ByteSize, String.utf8ByteSize.go]
    constructor
    · intro h; omega
    · intro h; exact absurd (congrArg String.data h) (by simp)

theorem fatal_run (msg : String) (w : World) :
    fatal msg w = ⟨Outcome.exit 1, w, [Event.stderr (msg ++ "\n")]⟩ := by
  simp [fatal, emit, osExit, run_bind, M.bind]

theorem checkErr_run (err : Option String) (msg : String) (w : World) :
    checkErr err msg w =
      match err with
      | some e => ⟨Outcome.exit 1, w, [Event.stderr ("Failed to " ++ msg ++ ": " ++ e ++ "\n")]⟩
      | none => ⟨Outcome.ret (), w, []⟩ := by
  cases err <;> simp [checkErr, fatal_run, M.pure]


theorem getClient_run (s : String) (w : World) :
    getClient s w =
      if s = "" then
        ⟨Outcome.exit 1, w,
          [Event.stderr "Need --server or FISSION_URL set to your fission server.\n"]⟩
      else
        ⟨Outcome.ret
          (if !(startsWith s "http://" || startsWith s "https://") then ⟨"http://" ++ s⟩
            else ⟨s⟩), w, []⟩ := by
  by_cases h : s = ""
  · subst h
    simp [getClient, fatal_run, run_bind, M.bind, len_eq_zero]
  · have h0 : ¬ len s = 0 := fun h0 => h ((len_eq_zero s).mp h0)
    by_cases hp : (!(startsWith s "http://" || startsWith s "https://")) = true <;>
      simp [getClient, run_bind, M.bind, M.pure, h0, h, hp]

theorem PackageGet_run (c : Client) (m : ObjectMeta) (w : World) :
    ∃ r : Package × Option String,
      c.PackageGet m w =
        ⟨Outcome.ret r, { w with faults := w.faults.tail }, [Event.packageGet m r.1 r.2]⟩ ∧
      (r.2 = none → w.store.findPackage m = some r.1) ∧
      (∀ p, nextFault w.faults = none → w.store.findPackage m = some p → r = (p, none)) := by
  rcases hf : nextFault w.faults with _ | e
  · rcases hp : w.store.findPackage m with _ | p
    · refine ⟨({}, some "not found"), ?_, by simp, by simp⟩
      simp [Client.PackageGet, popFault, getWorld, emit, run_bind, M.bind, M.pure, hf,
        Store.packageGet, hp]
    · refine ⟨(p, none), ?_, by simp, by simp⟩
      simp [Client.PackageGet, popFault, getWorld, emit, run_bind, M.bind, M.pure, hf,
        Store.packageGet, hp]
  · refine ⟨({}, some e), ?_, by simp, ?_⟩
    · simp [Client.PackageGet, popFault, getWorld, emit, run_bind, M.bind, M.pure, hf]
    · intro p h0
      cases h0

theorem FunctionList_run (c : Client) (w : World) :
    c.FunctionList w =
      match nextFault w.faults with
      | some e =>
        ⟨Outcome.ret ([], some e), { w with faults := w.faults.tail },
          [Event.functionList [] (some e)]⟩
      | none =>
        ⟨Outcome.ret (w.store.functions, none), { w with faults := w.faults.tail },
          [Event.functionList w.store.functions none]⟩ := by
  rcases hf : nextFault w.faults with _ | e <;>
    simp [Client.FunctionList, popFault, getWorld, emit, run_bind, M.bind, M.pure, hf]

theorem getFunctionsByPackage_run (c : Client) (p : String) (w : World) :
    getFunctionsByPackage c p w =
      match nextFault w.faults with
      | some e =>
        ⟨Outcome.ret (none, some e), { w with faults := w.faults.tail },
          [Event.functionList [] (some e)]⟩
      | none =>
        ⟨Outcome.ret
          (some (w.store.functions.filter (fun fn => fn.Spec.Package.PackageRef.Name = p)), none),
          { w with faults := w.faults.tail }, [Event.functionList w.store.functions none]⟩ := by
  rcases hf : nextFault w.faults with _ | e <;>
    simp [getFunctionsByPackage, FunctionList_run, run_bind, M.bind, M.pure, hf,
      foldl_append_filter]


theorem getClient_ok (s : String) (h : s ≠ "") :
    ∃ cl : Client, ∀ w, getClient s w = ⟨Outcome.ret cl, w, []⟩ :=
  ⟨_, fun w => by rw [getClient_run, if_neg h]⟩

theorem pkgUpdate_eq (L : Int) (c : Context) :
    pkgUpdate L c = (do
      let client ← getClient c.server
      if len c.name == 0 then
        fatal "Need --name argument."
      if len c.src == 0 && len c.deploy == 0 && len c.env == 0 && len c.desc == 0 then
        fatal "Need --env or --desc or --src or --deploy or --desc argument."
      let (pkg, err) ← client.PackageGet { Namespace := NamespaceDefault, Name := c.name }
      checkErr err "get package"
      let (fnList, err) ← getFunctionsByPackage client c.name
      checkErr err "get function list"
      if !c.f && fnList.len > 0 then
        fatal "Package is used by multiple functions, use -f to force update"
      pkgUpdateApply L client c pkg fnList) := rfl

theorem createPackage_eq (L : Int) (client : Client) (env src deploy desc : String) :
    createPackage L client env src deploy desc = (do
      let pkgSpec : PackageSpec :=
        { Environment := { Namespace := NamespaceDefault, Name := env },
          Description := desc }
      let pkgSpec ←
        if len deploy > 0 then do
          let a ← createArchive L client deploy
          if len src > 0 then
            emit (Event.stdout
              "Deployment may be overwritten by builder manager after source package compilation\n")
          pure { pkgSpec with Deployment := a }
        else pure pkgSpec
      createPackageAfterDeploy L client src pkgSpec) := rfl

theorem pkgUpdate_blocked_run (L : Int) (c : Context) (w : World) (hforce : c.f = false)
    (hdep : w.store.functions.filter (fun fn => fn.Spec.Package.PackageRef.Name = c.name) ≠ []) :
    (pkgUpdate L c w).out = Outcome.exit 1 ∧
    (∃ fs, (pkgUpdate L c w).world = { w with faults := fs } ∧ (w.faults = [] → fs = [])) ∧
    ∀ e ∈ (pkgUpdate L c w).events, e.mutates = false := by
  rw [pkgUpdate_eq]
  by_cases hs : c.server = ""
  · simp [getClient_run, hs, run_bind, M.bind, Event.mutates]
    exact ⟨w.faults, rfl, fun h => h⟩
  obtain ⟨cl, hcl⟩ := getClient_ok c.server hs
  by_cases hn : c.name = ""
  · simp [hcl, run_bind, M.bind, hn, len_eq_zero, fatal_run, Event.mutates]
    exact ⟨w.faults, rfl, fun h => h⟩
  by_cases ha : ((c.src = "" ∧ c.deploy = "") ∧ c.env = "") ∧ c.desc = ""
  · simp [hcl, run_bind, M.bind, hn, len_eq_zero, fatal_run, ha, M.pure, Event.mutates]
    exact ⟨w.faults, rfl, fun h => h⟩
  obtain ⟨r, hr, -, -⟩ := PackageGet_run cl { Namespace := NamespaceDefault, Name := c.name } w
  rcases r with ⟨pkg, err⟩
  cases err with
  | some e =>
    simp [hcl, run_bind, M.bind, hn, len_eq_zero, fatal_run, ha, M.pure,
      Event.mutates, hr, checkErr_run]
    intro h; simp [h]
  | none =>
    rcases hf : nextFault w.faults.tail with _ | e
    · simp [hcl, run_bind, M.bind, hn, len_eq_zero, fatal_run, ha,
        M.pure, Event.mutates, hr, checkErr_run, getFunctionsByPackage_run, hf, hforce, Slice.len,
        List.length_pos, hdep]
      intro h; simp [h]
    · simp [hcl, run_bind, M.bind, hn, len_eq_zero, fatal_run, ha,
        M.pure, Event.mutates, hr, checkErr_run, getFunctionsByPackage_run, hf]
      intro h; simp [h]


theorem createArchive_events (L : Int) (cl : Client) (n : String) (w : World) :
    ∀ e ∈ (createArchive L cl n w).events,
      (∃ u f id err, e = Event.upload u f id err) ∨ (∃ s, e = Event.stderr s) := by
  intro e he
  rcases hl : w.fs.lookup (resolve w.cwd n) with _ | f
  · simp [createArchive, fileSize, osStat, FS.stat, getWorld, checkErr_run, run_bind, M.bind,
      M.pure, hl] at he
    exact Or.inr ⟨_, he⟩
  · by_cases hlt : (f.data.length : Int) < L
    · cases hr : f.readable
      · simp [createArchive, fileSize, osStat, FS.stat, getWorld, checkErr_run, run_bind, M.bind,
          M.pure, hl, hlt, getContents, ioutilReadFile, FS.readFile, hr] at he
        exact Or.inr ⟨_, he⟩
      · simp [createArchive, fileSize, osStat, FS.stat, getWorld, checkErr_run, run_bind, M.bind,
          M.pure, hl, hlt, getContents, ioutilReadFile, FS.readFile, hr] at he
    · rcases hf : nextFault w.faults with _ | err
      · cases hr : f.readable
        · simp [createArchive, fileSize, osStat, FS.stat, getWorld, checkErr_run, run_bind, M.bind,
            M.pure, hl, hlt, StorageClient.Upload, StorageClient.GetUrl, popFault, hf, FS.readFile,
            hr, emit, newUuid, addArchive] at he
          rcases he with he | he
          · exact Or.inl ⟨_, _, _, _, he⟩
          · exact Or.inr ⟨_, he⟩
        · simp [createArchive, fileSize, osStat, FS.stat, getWorld, checkErr_run, run_bind, M.bind,
            M.pure, hl, hlt, StorageClient.Upload, StorageClient.GetUrl, popFault, hf, FS.readFile,
            hr, emit, newUuid, addArchive] at he
          exact Or.inl ⟨_, _, _, _, he⟩
      · simp [createArchive, fileSize, osStat, FS.stat, getWorld, checkErr_run, run_bind, M.bind,
          M.pure, hl, hlt, StorageClient.Upload, StorageClient.GetUrl, popFault, hf, emit] at he
        rcases he with he | he
        · exact Or.inl ⟨_, _, _, _, he⟩
        · exact Or.inr ⟨_, he⟩

theorem NoFaults.next {fs : List (Option String)} (h : NoFaults fs) : nextFault fs = none := by
  cases fs with
  | nil => rfl
  | cons o rest =>
    cases o with
    | none => rfl
    | some e => exact absurd (List.mem_cons_self _ _) (h e)

theorem NoFaults.tail {fs : List (Option String)} (h : NoFaults fs) : NoFaults fs.tail :=
  fun e he => h e (List.mem_of_mem_tail he)

theorem createArchive_ok (L : Int) (cl : Client) (n : String) (w : World) (f : File)
    (hl : w.fs.lookup (resolve w.cwd n) = some f) (hr : f.readable = true)
    (h0 : NoFaults w.faults) :
    (∃ a, (createArchive L cl n w).out = Outcome.ret a) ∧
      (createArchive L cl n w).world.store = w.store ∧
      NoFaults (createArchive L cl n w).world.faults ∧
      (createArchive L cl n w).world.fs = w.fs ∧
      (createArchive L cl n w).world.cwd = w.cwd ∧
      ∀ e ∈ (createArchive L cl n w).events, ∃ u f id, e = Event.upload u f id none := by
  by_cases hlt : (f.data.length : Int) < L
  · rw [(createArchive_run_by_size L cl n w f hl hr).1 hlt]
    simp [h0]
  · simp [createArchive, run_bind, M.bind, M.pure, run_fileSize n w f hl, hlt,
      StorageClient.Upload, StorageClient.GetUrl, popFault, getWorld, h0.next, FS.readFile, hl,
      hr, newUuid, addArchive, emit, checkErr, h0.tail]

theorem PackageCreate_run (cl : Client) (pkg : Package) (w : World) :
    ∃ r, (cl.PackageCreate pkg w).out = Outcome.ret r ∧
      (cl.PackageCreate pkg w).events = [Event.packageCreate pkg r.1 r.2] := by
  rcases hf : nextFault w.faults with _ | e
  · rcases hp : w.store.packageCreate pkg with ⟨e | m, s⟩
    · exact ⟨({}, some e), by
        simp [Client.PackageCreate, popFault, getWorld, emit, setStore, run_bind, M.bind, M.pure,
          hf, hp]⟩
    · exact ⟨(m, none), by
        simp [Client.PackageCreate, popFault, getWorld, emit, setStore, run_bind, M.bind, M.pure,
          hf, hp]⟩
  · exact ⟨({}, some e), by
      simp [Client.PackageCreate, popFault, getWorld, emit, run_bind, M.bind, M.pure, hf]⟩

theorem createPackagePersist_events (cl : Client) (spec : PackageSpec) (st : BuildStatus)
    (w : World) (pkg : Package) (m : ObjectMeta) (err : Option String)
    (h : Event.packageCreate pkg m err ∈ (createPackagePersist cl spec st w).events) :
    pkg.Spec.Status.BuildStatus = st := by
  obtain ⟨r, hout, hev⟩ := PackageCreate_run cl
    { Metadata := { Name := ToLower (w.uuid w.uuidCount), Namespace := NamespaceDefault },
      Spec := { spec with Status := { BuildStatus := st } } }
    { w with uuidCount := w.uuidCount + 1 }
  rcases hc : cl.PackageCreate
    { Metadata := { Name := ToLower (w.uuid w.uuidCount), Namespace := NamespaceDefault },
      Spec := { spec with Status := { BuildStatus := st } } }
    { w with uuidCount := w.uuidCount + 1 } with ⟨o, w1, es⟩
  rw [hc] at hout hev
  simp only at hout hev
  subst hout hev
  rcases r with ⟨meta, e⟩
  cases e <;>
    simp [createPackagePersist, newUuid, run_bind, M.bind, M.pure, hc, checkErr_run, emit] at h <;>
    simp [h]

theorem createPackageAfterDeploy_events (L : Int) (cl : Client) (src : String)
    (spec : PackageSpec) (w : World) (pkg : Package) (m : ObjectMeta) (err : Option String)
    (h : Event.packageCreate pkg m err ∈ (createPackageAfterDeploy L cl src spec w).events) :
    pkg.Spec.Status.BuildStatus =
      if src = "" then BuildStatus.succeeded else BuildStatus.pending := by
  by_cases hs : src = ""
  · simp [createPackageAfterDeploy, run_bind, M.bind, M.pure, hs, len_eq_zero] at h
    simpa [hs] using createPackagePersist_events cl _ _ w pkg m err h
  · have hlen : 0 < len src := Nat.pos_of_ne_zero (fun h0 => hs ((len_eq_zero src).mp h0))
    have hev := createArchive_events L cl src w
    rcases hc : createArchive L cl src w with ⟨o, w1, es⟩
    rw [hc] at hev
    cases o with
    | ret a =>
      simp [createPackageAfterDeploy, run_bind, M.bind, M.pure, hlen, hc] at h
      rcases h with h | h
      · rcases hev _ h with ⟨_, _, _, _, h'⟩ | ⟨_, h'⟩ <;> cases h'
      · simpa [hs] using createPackagePersist_events cl _ _ w1 pkg m err h
    | exit code =>
      simp [createPackageAfterDeploy, run_bind, M.bind, M.pure, hlen, hc] at h
      rcases hev _ h with ⟨_, _, _, _, h'⟩ | ⟨_, h'⟩ <;> cases h'

theorem createPackage_events (L : Int) (cl : Client) (env src deploy desc : String)
    (w : World) (pkg : Package) (m : ObjectMeta) (err : Option String)
    (h : Event.packageCreate pkg m err ∈ (createPackage L cl env src deploy desc w).events) :
    pkg.Spec.Status.BuildStatus =
      if src = "" then BuildStatus.succeeded else BuildStatus.pending := by
  rw [createPackage_eq] at h
  by_cases hd : deploy = ""
  · simp [run_bind, M.bind, M.pure, hd, len_eq_zero] at h
    exact createPackageAfterDeploy_events L cl src _ w pkg m err h
  · have hlen : 0 < len deploy := Nat.pos_of_ne_zero (fun h0 => hd ((len_eq_zero deploy).mp h0))
    have hev := createArchive_events L cl deploy w
    rcases hc : createArchive L cl deploy w with ⟨o, w1, es⟩
    rw [hc] at hev
    cases o with
    | ret a =>
      by_cases hs : 0 < len src
      · simp [run_bind, M.bind, M.pure, hlen, hc, hs, emit] at h
        rcases h with h | h
        · rcases hev _ h with ⟨_, _, _, _, h'⟩ | ⟨_, h'⟩ <;> cases h'
        · exact createPackageAfterDeploy_events L cl src _ w1 pkg m err h
      · simp [run_bind, M.bind, M.pure, hlen, hc, hs, emit] at h
        rcases h with h | h
        · rcases hev _ h with ⟨_, _, _, _, h'⟩ | ⟨_, h'⟩ <;> cases h'
        · exact createPackageAfterDeploy_events L cl src _ w1 pkg m err h
    | exit code =>
      simp [run_bind, M.bind, M.pure, hlen, hc] at h
      rcases hev _ h with ⟨_, _, _, _, h'⟩ | ⟨_, h'⟩ <;> cases h'


theorem PackageUpdate_run (cl : Client) (pkg : Package) (w : World) :
    ∃ r, (cl.PackageUpdate pkg w).out = Outcome.ret r ∧
      (cl.PackageUpdate pkg w).events = [Event.packageUpdate pkg r.1 r.2] ∧
      (cl.PackageUpdate pkg w).world.faults = w.faults.tail ∧
      (cl.PackageUpdate pkg w).world.store.functions = w.store.functions ∧
      (nextFault w.faults = none → (w.store.findPackage pkg.Metadata).isSome → r.2 = none) := by
  rcases hf : nextFault w.faults with _ | e
  · rcases hp : w.store.findPackage pkg.Metadata with _ | p
    · exact ⟨({}, some "not found"), by
        simp [Client.PackageUpdate, popFault, getWorld, emit, setStore, run_bind, M.bind, M.pure,
          hf, Store.packageUpdate, hp]⟩
    · exact ⟨({ pkg.Metadata with ResourceVersion := w.store.stamp }, none), by
        simp [Client.PackageUpdate, popFault, getWorld, emit, setStore, run_bind, M.bind, M.pure,
          hf, Store.packageUpdate, hp]⟩
  · exact ⟨({}, some e), by
      simp [Client.PackageUpdate, popFault, getWorld, emit, run_bind, M.bind, M.pure, hf]⟩

theorem FunctionUpdate_run (cl : Client) (fn : Function) (w : World) :
    ∃ r, (cl.FunctionUpdate fn w).out = Outcome.ret r ∧
      (cl.FunctionUpdate fn w).events = [Event.functionUpdate fn r.1 r.2] ∧
      (cl.FunctionUpdate fn w).world.faults = w.faults.tail ∧
      (nextFault w.faults = none → (w.store.findFunction fn.Metadata).isSome →
        r.2 = none ∧ (cl.FunctionUpdate fn w).world.store = (w.store.functionUpdate fn).2) := by
  rcases hf : nextFault w.faults with _ | e
  · rcases hp : w.store.findFunction fn.Metadata with _ | p
    · exact ⟨({}, some "not found"), by
        simp [Client.FunctionUpdate, popFault, getWorld, emit, setStore, run_bind, M.bind, M.pure,
          hf, Store.functionUpdate, hp]⟩
    · exact ⟨({ fn.Metadata with ResourceVersion := w.store.stamp }, none), by
        simp [Client.FunctionUpdate, popFault, getWorld, emit, setStore, run_bind, M.bind, M.pure,
          hf, Store.functionUpdate, hp]⟩
  · exact ⟨({}, some e), by
      simp [Client.FunctionUpdate, popFault, getWorld, emit, run_bind, M.bind, M.pure, hf]⟩

theorem updateFunctions_events (cl : Client) (m : ObjectMeta) (fns : List Function) (w : World) :
    ∀ e ∈ (updateFunctions cl m fns w).events,
      (∃ fn r err, e = Event.functionUpdate fn r err) ∨ (∃ s, e = Event.stderr s) := by
  induction fns generalizing w with
  | nil => simp [updateFunctions, M.pure]
  | cons fn rest ih =>
    intro e he
    obtain ⟨r, hout, hev, -, -⟩ := FunctionUpdate_run cl (fn.withPackageVersion m.ResourceVersion) w
    rcases hc : cl.FunctionUpdate (fn.withPackageVersion m.ResourceVersion) w with ⟨o, w1, es⟩
    rw [hc] at hout hev
    simp only at hout hev
    subst hout hev
    have hc' : cl.FunctionUpdate
        { fn with Spec := { fn.Spec with Package := { fn.Spec.Package with
            PackageRef := { fn.Spec.Package.PackageRef with
              ResourceVersion := m.ResourceVersion } } } } w = _ := hc
    rcases r with ⟨meta, err⟩
    cases err with
    | none =>
      simp [updateFunctions, run_bind, M.bind, hc', checkErr_run] at he
      rcases he with he | he
      · exact Or.inl ⟨_, _, _, he⟩
      · exact ih w1 e he
    | some x =>
      simp [updateFunctions, run_bind, M.bind, hc', checkErr_run] at he
      rcases he with he | he
      · exact Or.inl ⟨_, _, _, he⟩
      · exact Or.inr ⟨_, he⟩


theorem len_pos_of_ne (s : String) (h : s ≠ "") : 0 < len s :=
  Nat.pos_of_ne_zero (fun h0 => h ((len_eq_zero s).mp h0))

theorem pkgUpdatePersist_events (cl : Client) (pkg : Package) (fnList : Slice Function)
    (w : World) (pkg' : Package) (m : ObjectMeta) (err : Option String)
    (h : Event.packageUpdate pkg' m err ∈ (pkgUpdatePersist cl pkg fnList w).events) :
    pkg' = pkg := by
  obtain ⟨r, hout, hev, -, -, -⟩ := PackageUpdate_run cl pkg w
  rcases hc : cl.PackageUpdate pkg w with ⟨o, w1, es⟩
  rw [hc] at hout hev
  simp only at hout hev
  subst hout hev
  have hu := updateFunctions_events cl r.1 fnList.elems w1
  rcases r with ⟨meta, e⟩
  cases e with
  | none =>
    rcases hl : updateFunctions cl meta fnList.elems w1 with ⟨o2, w2, es2⟩
    rw [hl] at hu
    cases o2 <;>
    · simp [pkgUpdatePersist, run_bind, M.bind, M.pure, hc, checkErr_run, hl] at h
      rcases h with h | h
      · exact h.1
      · rcases hu _ h with ⟨_, _, _, h'⟩ | ⟨_, h'⟩ <;> cases h'
  | some x =>
    simp [pkgUpdatePersist, run_bind, M.bind, M.pure, hc, checkErr_run] at h
    exact h.1

theorem pkgUpdateAfterSrc_events (L : Int) (cl : Client) (c : Context) (pkg : Package)
    (ntb : Bool) (fnList : Slice Function) (w : World) (pkg' : Package) (m : ObjectMeta)
    (err : Option String)
    (h : Event.packageUpdate pkg' m err ∈ (pkgUpdateAfterSrc L cl c pkg ntb fnList w).events) :
    pkg'.Spec.Status.BuildStatus =
      if ntb then BuildStatus.pending else pkg.Spec.Status.BuildStatus := by
  by_cases hd : c.deploy = ""
  · simp only [pkgUpdateAfterSrc, run_bind, M.bind, hd, (len_eq_zero "").mpr rfl,
      gt_iff_lt, lt_irrefl, if_false, run_pure] at h
    have := pkgUpdatePersist_events cl _ fnList w pkg' m err h
    subst this
    by_cases hdesc : 0 < len c.desc <;> cases ntb <;> simp [hdesc]
  · have hlen := len_pos_of_ne _ hd
    have hev := createArchive_events L cl c.deploy w
    rcases hc : createArchive L cl c.deploy w with ⟨o, w1, es⟩
    rw [hc] at hev
    cases o with
    | ret a =>
      simp only [pkgUpdateAfterSrc, run_bind, M.bind, hlen, gt_iff_lt, if_true, hc, run_pure,
        List.mem_append, List.append_nil, List.not_mem_nil, false_or] at h
      rcases h with h | h
      · rcases hev _ h with ⟨_, _, _, _, h'⟩ | ⟨_, h'⟩ <;> cases h'
      · have := pkgUpdatePersist_events cl _ fnList w1 pkg' m err h
        subst this
        by_cases hdesc : 0 < len c.desc <;> cases ntb <;> simp [hdesc]
    | exit code =>
      simp only [pkgUpdateAfterSrc, run_bind, M.bind, hlen, gt_iff_lt, if_true, hc] at h
      rcases hev _ h with ⟨_, _, _, _, h'⟩ | ⟨_, h'⟩ <;> cases h'

theorem pkgUpdateApply_events (L : Int) (cl : Client) (c : Context) (pkg : Package)
    (fnList : Slice Function) (w : World) (pkg' : Package) (m : ObjectMeta)
    (err : Option String)
    (h : Event.packageUpdate pkg' m err ∈ (pkgUpdateApply L cl c pkg fnList w).events) :
    pkg'.Spec.Status.BuildStatus =
      if c.env ≠ "" ∨ c.src ≠ "" then BuildStatus.pending else pkg.Spec.Status.BuildStatus := by
  by_cases hs : c.src = ""
  · simp only [pkgUpdateApply, run_bind, M.bind, hs, (len_eq_zero "").mpr rfl,
      gt_iff_lt, lt_irrefl, if_false, run_pure, List.nil_append] at h
    have := pkgUpdateAfterSrc_events L cl c _ _ fnList w pkg' m err h
    rw [this]
    by_cases he : c.env = ""
    · simp [he, hs, (len_eq_zero "").mpr rfl]
    · simp [he, hs, len_pos_of_ne _ he]
  · have hlen := len_pos_of_ne _ hs
    have hev := createArchive_events L cl c.src w
    rcases hc : createArchive L cl c.src w with ⟨o, w1, es⟩
    rw [hc] at hev
    cases o with
    | ret a =>
      simp only [pkgUpdateApply, run_bind, M.bind, hlen, gt_iff_lt, if_true, hc, run_pure,
        List.mem_append, List.append_nil, List.not_mem_nil, false_or] at h
      rcases h with h | h
      · rcases hev _ h with ⟨_, _, _, _, h'⟩ | ⟨_, h'⟩ <;> cases h'
      · have := pkgUpdateAfterSrc_events L cl c _ _ fnList w1 pkg' m err h
        rw [this]
        simp [hs]
    | exit code =>
      simp only [pkgUpdateApply, run_bind, M.bind, hlen, gt_iff_lt, if_true, hc] at h
      rcases hev _ h with ⟨_, _, _, _, h'⟩ | ⟨_, h'⟩ <;> cases h'

theorem pkgUpdate_events (L : Int) (c : Context) (w : World) (prior pkg' : Package)
    (m : ObjectMeta) (err : Option String)
    (hp : w.store.findPackage { Namespace := NamespaceDefault, Name := c.name } = some prior)
    (h : Event.packageUpdate pkg' m err ∈ (pkgUpdate L c w).events) :
    pkg'.Spec.Status.BuildStatus =
      if c.env ≠ "" ∨ c.src ≠ "" then BuildStatus.pending
      else prior.Spec.Status.BuildStatus := by
  rw [pkgUpdate_eq] at h
  by_cases hs : c.server = ""
  · simp [getClient_run, hs, run_bind, M.bind] at h
  obtain ⟨cl, hcl⟩ := getClient_ok c.server hs
  by_cases hn : c.name = ""
  · simp [hcl, run_bind, M.bind, hn, len_eq_zero, fatal_run] at h
  by_cases ha : ((c.src = "" ∧ c.deploy = "") ∧ c.env = "") ∧ c.desc = ""
  · simp [hcl, run_bind, M.bind, hn, len_eq_zero, fatal_run, ha, M.pure] at h
  obtain ⟨r, hr, hfound, -⟩ :=
    PackageGet_run cl { Namespace := NamespaceDefault, Name := c.name } w
  rcases r with ⟨pkg, e⟩
  cases e with
  | some e =>
    simp [hcl, run_bind, M.bind, hn, len_eq_zero, fatal_run, ha, M.pure, hr, checkErr_run] at h
  | none =>
    have hpkg : pkg = prior := by
      have := hfound rfl
      rw [hp] at this
      exact (Option.some.inj this).symm
    subst hpkg
    rcases hf : nextFault w.faults.tail with _ | e
    · by_cases hb : c.f = false ∧ 0 < Slice.len
          (some (w.store.functions.filter (fun fn => fn.Spec.Package.PackageRef.Name = c.name)))
      · simp [hcl, run_bind, M.bind, hn, len_eq_zero, fatal_run, ha, M.pure, hr, checkErr_run,
          getFunctionsByPackage_run, hf, hb] at h
      · simp [hcl, run_bind, M.bind, hn, len_eq_zero, fatal_run, ha, M.pure, hr, checkErr_run,
          getFunctionsByPackage_run, hf, hb] at h
        exact pkgUpdateApply_events L cl c _ _ _ pkg' m err h
    · simp [hcl, run_bind, M.bind, hn, len_eq_zero, fatal_run, ha, M.pure, hr, checkErr_run,
        getFunctionsByPackage_run, hf] at h


theorem findFunction_isSome_of_mem (s : Store) (fn : Function) (h : fn ∈ s.functions) :
    (s.findFunction fn.Metadata).isSome = true := by
  simp only [Store.findFunction, List.find?_isSome]
  exact ⟨fn, h, by simp [sameKey]⟩

theorem functionUpdate_findFunction (s : Store) (fn : Function) (q : ObjectMeta) :
    ((s.functionUpdate fn).2.findFunction q).isSome = (s.findFunction q).isSome := by
  rcases hp : s.findFunction fn.Metadata with _ | p
  · simp [Store.functionUpdate, hp]
  · unfold Store.functionUpdate
    rw [hp]
    simp only [Store.findFunction]
    rw [Bool.eq_iff_iff]
    simp only [List.find?_isSome, List.mem_map]
    constructor
    · rintro ⟨x, ⟨y, hy, rfl⟩, hx⟩
      refine ⟨y, hy, ?_⟩
      by_cases hk : sameKey y.Metadata fn.Metadata = true
      · simp only [hk, if_true] at hx
        simp only [sameKey, Bool.and_eq_true, beq_iff_eq] at hk hx ⊢
        exact ⟨hk.1.trans hx.1, hk.2.trans hx.2⟩
      · simpa [hk] using hx
    · rintro ⟨y, hy, hx⟩
      refine ⟨_, ⟨y, hy, rfl⟩, ?_⟩
      by_cases hk : sameKey y.Metadata fn.Metadata = true
      · simp only [hk, if_true]
        simp only [sameKey, Bool.and_eq_true, beq_iff_eq] at hk hx ⊢
        exact ⟨hk.1.symm.trans hx.1, hk.2.symm.trans hx.2⟩
      · simpa [hk] using hx

theorem updateFunctions_ok (cl : Client) (m : ObjectMeta) (fns : List Function) (w : World)
    (h0 : NoFaults w.faults)
    (hex : ∀ fn ∈ fns, (w.store.findFunction fn.Metadata).isSome = true) :
    (updateFunctions cl m fns w).out = Outcome.ret () ∧
    (updateFunctions cl m fns w).events.filterMap Event.updatedFunction =
      fns.map (fun fn => fn.withPackageVersion m.ResourceVersion) ∧
    ∀ e ∈ (updateFunctions cl m fns w).events,
      e.failed = false ∧ e.newPackageMeta = none := by
  induction fns generalizing w with
  | nil => simp [updateFunctions, M.pure]
  | cons fn rest ih =>
    obtain ⟨r, hout, hev, hfl, hok⟩ :=
      FunctionUpdate_run cl (fn.withPackageVersion m.ResourceVersion) w
    obtain ⟨hr2, hst⟩ := hok h0.next (hex fn (List.mem_cons_self _ _))
    rcases hc : cl.FunctionUpdate (fn.withPackageVersion m.ResourceVersion) w with ⟨o, w1, es⟩
    rw [hc] at hout hev hfl hst
    simp only at hout hev hfl hst
    subst hout hev
    have hc' : cl.FunctionUpdate
        { fn with Spec := { fn.Spec with Package := { fn.Spec.Package with
            PackageRef := { fn.Spec.Package.PackageRef with
              ResourceVersion := m.ResourceVersion } } } } w = _ := hc
    rcases r with ⟨meta, err⟩
    simp only at hr2
    subst hr2
    have h1 : NoFaults w1.faults := hfl ▸ h0.tail
    have hex1 : ∀ g ∈ rest, (w1.store.findFunction g.Metadata).isSome = true := by
      intro g hg
      rw [hst, functionUpdate_findFunction]
      exact hex g (List.mem_cons_of_mem _ hg)
    obtain ⟨io, ie, ia⟩ := ih w1 h1 hex1
    rcases hl : updateFunctions cl m rest w1 with ⟨o2, w2, es2⟩
    rw [hl] at io ie ia
    simp only at io ie ia
    subst io
    simp only [updateFunctions, run_bind, M.bind, hc', checkErr_run, hl]
    refine ⟨by simp, ?_, ?_⟩
    · simp [Event.updatedFunction, ie, Function.withPackageVersion]
    · intro e he
      simp at he
      rcases he with rfl | he
      · exact ⟨rfl, rfl⟩
      · exact ia e he


theorem filterMap_eq_nil_of_forall {α β : Type} (g : α → Option β) (l : List α)
    (h : ∀ a ∈ l, g a = none) : l.filterMap g = [] := by
  induction l with
  | nil => rfl
  | cons a rest ih =>
    simp [List.filterMap_cons, h a (List.mem_cons_self _ _),
      ih (fun b hb => h b (List.mem_cons_of_mem _ hb))]

theorem Repointed.prepend (r : Result (Option String)) (es : List Event) (fns : List Function)
    (hq : Quiet es) (hr : Repointed r fns) :
    Repointed ⟨r.out, r.world, es ++ r.events⟩ fns := by
  obtain ⟨ho, meta, h1, h2, h3⟩ := hr
  have e1 : es.filterMap Event.newPackageMeta = [] :=
    filterMap_eq_nil_of_forall _ _ (fun e he => (hq e he).2.1)
  have e2 : es.filterMap Event.updatedFunction = [] :=
    filterMap_eq_nil_of_forall _ _ (fun e he => (hq e he).2.2)
  refine ⟨ho, meta, ?_, ?_, ?_⟩
  · simp [List.filterMap_append, e1, h1]
  · simp [List.filterMap_append, e2, h2]
  · intro e he
    rcases List.mem_append.mp he with he | he
    · exact (hq e he).1
    · exact h3 e he

theorem Repointed.bind {α : Type} (m : M α) (f : α → M (Option String)) (w w1 : World)
    (a : α) (es : List Event) (fns : List Function)
    (hm : m w = ⟨Outcome.ret a, w1, es⟩) (hq : Quiet es) (hr : Repointed (f a w1) fns) :
    Repointed (M.bind m f w) fns := by
  have := Repointed.prepend _ es fns hq hr
  rcases hf : f a w1 with ⟨o, w2, es2⟩
  rw [hf] at this
  simpa only [M.bind, hm, hf] using this

theorem pkgUpdatePersist_ok (cl : Client) (pkg : Package) (fnList : Slice Function) (w : World)
    (h0 : NoFaults w.faults) (hp : (w.store.findPackage pkg.Metadata).isSome = true)
    (hex : ∀ fn ∈ fnList.elems, (w.store.findFunction fn.Metadata).isSome = true) :
    Repointed (pkgUpdatePersist cl pkg fnList w) fnList.elems := by
  obtain ⟨r, hout, hev, hfl, hfn, hok⟩ := PackageUpdate_run cl pkg w
  have hr2 := hok h0.next hp
  rcases hc : cl.PackageUpdate pkg w with ⟨o, w1, es⟩
  rw [hc] at hout hev hfl hfn
  simp only at hout hev hfl hfn
  subst hout hev
  rcases r with ⟨meta, err⟩
  simp only at hr2
  subst hr2
  have h1 : NoFaults w1.faults := hfl ▸ h0.tail
  have hex1 : ∀ g ∈ fnList.elems, (w1.store.findFunction g.Metadata).isSome = true := by
    intro g hg
    have := hex g hg
    simpa [Store.findFunction, hfn] using this
  obtain ⟨io, ie, ia⟩ := updateFunctions_ok cl meta fnList.elems w1 h1 hex1
  rcases hl : updateFunctions cl meta fnList.elems w1 with ⟨o2, w2, es2⟩
  rw [hl] at io ie ia
  simp only at io ie ia
  subst io
  have e1 : es2.filterMap Event.newPackageMeta = [] :=
    filterMap_eq_nil_of_forall _ _ (fun e he => (ia e he).2)
  simp only [pkgUpdatePersist, run_bind, M.bind, hc, checkErr_run, hl, run_pure, M.pure]
  refine ⟨rfl, meta, ?_, ?_, ?_⟩
  · simp [Event.newPackageMeta, e1]
  · simp [Event.updatedFunction, ie]
  · intro e he
    simp at he
    rcases he with rfl | he
    · rfl
    · exact (ia e he).1

theorem pure_bind_run {α β : Type} (a : α) (f : α → M β) (w : World) :
    M.bind (pure a) f w = f a w := by
  show (match (⟨Outcome.ret a, w, []⟩ : Result α) with
    | ⟨Outcome.ret a, w1, es⟩ =>
      match f a w1 with
      | ⟨o, w2, es2⟩ => ⟨o, w2, es ++ es2⟩
    | ⟨Outcome.exit c, w1, es⟩ => ⟨Outcome.exit c, w1, es⟩) = f a w
  rcases hf : f a w with ⟨o, w2, es2⟩
  simp [hf]

theorem findPackage_isSome_of_found (s : Store) (k : ObjectMeta) (p : Package)
    (h : s.findPackage k = some p) (q : ObjectMeta) (hq : sameKey q k = true) :
    (s.findPackage q).isSome = true := by
  have hk : sameKey p.Metadata k = true := by
    simpa using List.find?_some h
  have hmem : p ∈ s.packages := List.mem_of_find?_eq_some h
  simp only [Store.findPackage, List.find?_isSome]
  refine ⟨p, hmem, ?_⟩
  simp only [sameKey, Bool.and_eq_true, beq_iff_eq] at hk hq ⊢
  exact ⟨hk.1.trans hq.1.symm, hk.2.trans hq.2.symm⟩

theorem pkgUpdateAfterSrc_ok (L : Int) (cl : Client) (c : Context) (pkg : Package) (ntb : Bool)
    (fnList : Slice Function) (w : World)
    (h0 : NoFaults w.faults) (hp : (w.store.findPackage pkg.Metadata).isSome = true)
    (hex : ∀ fn ∈ fnList.elems, (w.store.findFunction fn.Metadata).isSome = true)
    (hdep : c.deploy ≠ "" →
      ∃ f, w.fs.lookup (resolve w.cwd c.deploy) = some f ∧ f.readable = true) :
    Repointed (pkgUpdateAfterSrc L cl c pkg ntb fnList w) fnList.elems := by
  by_cases hd : c.deploy = ""
  · simp only [pkgUpdateAfterSrc, run_bind, hd, (len_eq_zero "").mpr rfl,
      gt_iff_lt, lt_irrefl, if_false]
    simp only [pure_bind_run]
    apply pkgUpdatePersist_ok _ _ _ _ h0 _ hex
    by_cases hdesc : 0 < len c.desc <;> cases ntb <;> simpa [hdesc] using hp
  · have hlen := len_pos_of_ne _ hd
    obtain ⟨f, hl, hr⟩ := hdep hd
    obtain ⟨⟨a, ha⟩, hst, hfl, -, -, hev⟩ := createArchive_ok L cl c.deploy w f hl hr h0
    rcases hc : createArchive L cl c.deploy w with ⟨o, w1, es⟩
    rw [hc] at ha hst hfl hev
    simp only at ha hst hfl hev
    subst ha
    simp only [pkgUpdateAfterSrc, run_bind, hlen, gt_iff_lt, if_true]
    refine Repointed.bind _ _ w w1 a es _ hc ?_ ?_
    · intro e he
      obtain ⟨_, _, _, rfl⟩ := hev e he
      exact ⟨rfl, rfl, rfl⟩
    · simp only [run_bind, pure_bind_run]
      apply pkgUpdatePersist_ok _ _ _ _ hfl _ (hst ▸ hex)
      rw [hst]
      by_cases hdesc : 0 < len c.desc <;> cases ntb <;> simpa [hdesc] using hp

theorem pkgUpdateApply_ok (L : Int) (cl : Client) (c : Context) (pkg : Package)
    (fnList : Slice Function) (w : World)
    (h0 : NoFaults w.faults) (hp : (w.store.findPackage pkg.Metadata).isSome = true)
    (hex : ∀ fn ∈ fnList.elems, (w.store.findFunction fn.Metadata).isSome = true)
    (hsrc : c.src ≠ "" →
      ∃ f, w.fs.lookup (resolve w.cwd c.src) = some f ∧ f.readable = true)
    (hdep : c.deploy ≠ "" →
      ∃ f, w.fs.lookup (resolve w.cwd c.deploy) = some f ∧ f.readable = true) :
    Repointed (pkgUpdateApply L cl c pkg fnList w) fnList.elems := by
  by_cases hs : c.src = ""
  · simp only [pkgUpdateApply, run_bind, hs, (len_eq_zero "").mpr rfl,
      gt_iff_lt, lt_irrefl, if_false, pure_bind_run]
    apply pkgUpdateAfterSrc_ok L cl c _ _ fnList w h0 _ hex hdep
    by_cases he : 0 < len c.env <;> simpa [he] using hp
  · have hlen := len_pos_of_ne _ hs
    obtain ⟨f, hl, hr⟩ := hsrc hs
    obtain ⟨⟨a, ha⟩, hst, hfl, hfs, hcwd, hev⟩ := createArchive_ok L cl c.src w f hl hr h0
    rcases hc : createArchive L cl c.src w with ⟨o, w1, es⟩
    rw [hc] at ha hst hfl hfs hcwd hev
    simp only at ha hst hfl hfs hcwd hev
    subst ha
    simp only [pkgUpdateApply, run_bind, hlen, gt_iff_lt, if_true]
    refine Repointed.bind _ _ w w1 a es _ hc ?_ ?_
    · intro e he
      obtain ⟨_, _, _, rfl⟩ := hev e he
      exact ⟨rfl, rfl, rfl⟩
    · simp only [run_bind, pure_bind_run]
      apply pkgUpdateAfterSrc_ok L cl c _ _ fnList w1 hfl _ (hst ▸ hex)
      · rw [hfs, hcwd]
        exact hdep
      · rw [hst]
        by_cases he : 0 < len c.env <;> simpa [he] using hp

theorem pkgUpdate_ok (L : Int) (c : Context) (w : World) (prior : Package)
    (hs : c.server ≠ "") (hn : c.name ≠ "")
    (ha : ¬ (c.src = "" ∧ c.deploy = "" ∧ c.env = "" ∧ c.desc = ""))
    (hgo : c.f = true ∨
      w.store.functions.filter (fun fn => fn.Spec.Package.PackageRef.Name = c.name) = [])
    (h0 : NoFaults w.faults)
    (hp : w.store.findPackage { Namespace := NamespaceDefault, Name := c.name } = some prior)
    (hsrc : c.src ≠ "" →
      ∃ f, w.fs.lookup (resolve w.cwd c.src) = some f ∧ f.readable = true)
    (hdep : c.deploy ≠ "" →
      ∃ f, w.fs.lookup (resolve w.cwd c.deploy) = some f ∧ f.readable = true) :
    Repointed (pkgUpdate L c w)
      (w.store.functions.filter (fun fn => fn.Spec.Package.PackageRef.Name = c.name)) := by
  rw [pkgUpdate_eq]
  obtain ⟨cl, hcl⟩ := getClient_ok c.server hs
  have ha' : ¬ (((c.src = "" ∧ c.deploy = "") ∧ c.env = "") ∧ c.desc = "") :=
    fun h => ha ⟨h.1.1.1, h.1.1.2, h.1.2, h.2⟩
  obtain ⟨r, hr, -, hfound⟩ :=
    PackageGet_run cl { Namespace := NamespaceDefault, Name := c.name } w
  have hrp := hfound prior h0.next hp
  subst hrp
  have hq : Quiet [Event.packageGet { Namespace := NamespaceDefault, Name := c.name } prior none,
      Event.functionList w.store.functions none] := by
    intro e he
    simp at he
    rcases he with rfl | rfl <;> exact ⟨rfl, rfl, rfl⟩
  have hmeta : (w.store.findPackage prior.Metadata).isSome = true :=
    findPackage_isSome_of_found _ _ _ hp _ (by simpa using List.find?_some hp)
  have hex : ∀ fn ∈ Slice.elems (some (w.store.functions.filter
      (fun fn => fn.Spec.Package.PackageRef.Name = c.name))),
      (w.store.findFunction fn.Metadata).isSome = true := by
    intro fn hfn
    exact findFunction_isSome_of_mem _ _ (List.mem_of_mem_filter hfn)
  have hgood := pkgUpdateApply_ok L cl c prior
    (some (w.store.functions.filter (fun fn => fn.Spec.Package.PackageRef.Name = c.name)))
    { w with faults := w.faults.tail.tail } h0.tail.tail hmeta hex hsrc hdep
  have hrun := Repointed.prepend _ _ _ hq hgood
  rcases hgo with hforce | hnil
  · simp [hcl, run_bind, M.bind, hn, len_eq_zero, ha', M.pure, hr, checkErr_run,
      getFunctionsByPackage_run, h0.tail.next, h0.next, hforce, Slice.len]
    exact hrun
  · rw [hnil] at hrun
    simp [hcl, run_bind, M.bind, hn, len_eq_zero, ha', M.pure, hr, checkErr_run,
      getFunctionsByPackage_run, h0.tail.next, h0.next, hnil, Slice.len]
    exact hrun


theorem pkgDelete_blocked_run (c : Context) (w : World) (hn : c.name ≠ "")
    (hforce : c.f = false) (hlist : nextFault w.faults = none)
    (hdep : w.store.functions.filter (fun fn => fn.Spec.Package.PackageRef.Name = c.name) ≠ []) :
    (pkgDelete c w).out = Outcome.exit 1 ∧
    (pkgDelete c w).world.store = w.store ∧
    (∀ e ∈ (pkgDelete c w).events, e.mutates = false) ∧
    (c.server ≠ "" →
      (pkgDelete c w).events =
        [Event.functionList w.store.functions none,
         Event.stderr "Package is used by multiple functions, use -f to force delete\n"]) := by
  by_cases hs : c.server = ""
  · simp [pkgDelete, getClient_run, hs, run_bind, M.bind, Event.mutates]
  · obtain ⟨cl, hcl⟩ := getClient_ok c.server hs
    simp [pkgDelete, hcl, run_bind, M.bind, hn, len_eq_zero, fatal_run, M.pure, Event.mutates,
      getFunctionsByPackage_run, hlist, hforce, Slice.len, List.length_pos, hdep, hs]


theorem splitSep_of_no_sep (l : List Char) (h : '/' ∉ l) : splitSep l = [l] := by
  induction l with
  | nil => rfl
  | cons c cs ih =>
    have hc : c ≠ '/' := fun hc => h (hc ▸ List.mem_cons_self _ _)
    have hcs : '/' ∉ cs := fun hm => h (List.mem_cons_of_mem _ hm)
    simp [splitSep, hc, ih hcs]

theorem components_of_no_sep (s : String) (h : '/' ∉ s.data) : components s = [s] := by
  simp [components, splitSep_of_no_sep _ h]

theorem cleanStep_isClean (p : Path) (c : String) (hp : IsCleanPath p) :
    IsCleanPath (cleanStep p c) := by
  unfold cleanStep
  split
  · exact hp
  · rename_i h1
    split
    · exact fun x hx => hp x (List.mem_of_mem_dropLast hx)
    · rename_i h2
      intro x hx
      rcases List.mem_append.mp hx with hx | hx
      · exact hp x hx
      · have hxc : x = c := by simpa using hx
        subst hxc
        exact ⟨fun h => h1 (Or.inl h), fun h => h1 (Or.inr h), h2⟩

theorem foldl_cleanStep_isClean (cs : List String) (p : Path) (hp : IsCleanPath p) :
    IsCleanPath (cs.foldl cleanStep p) := by
  induction cs generalizing p with
  | nil => exact hp
  | cons c rest ih => exact ih _ (cleanStep_isClean p c hp)

theorem Join_isClean (p : Path) (s : String) : IsCleanPath (Join p s) :=
  foldl_cleanStep_isClean _ [] (fun _ h => absurd h (List.not_mem_nil _))

theorem cleanStep_of_plain (p : Path) (c : String) (h : c ≠ "" ∧ c ≠ "." ∧ c ≠ "..") :
    cleanStep p c = p ++ [c] := by
  simp [cleanStep, h.1, h.2.1, h.2.2]

theorem foldl_cleanStep_of_clean (p acc : Path) (hp : IsCleanPath p) :
    p.foldl cleanStep acc = acc ++ p := by
  induction p generalizing acc with
  | nil => simp
  | cons c rest ih =>
    have hc := hp c (List.mem_cons_self _ _)
    have hrest : IsCleanPath rest := fun x hx => hp x (List.mem_cons_of_mem _ hx)
    simp [List.foldl_cons, cleanStep_of_plain acc c hc, ih _ hrest]

theorem Join_of_plain (p : Path) (s : String) (hp : IsCleanPath p) (hs : PlainName s) :
    Join p s = p ++ [s] := by
  unfold Join clean
  rw [components_of_no_sep s hs.2.2.2, List.foldl_append, foldl_cleanStep_of_clean p [] hp]
  simp [cleanStep_of_plain _ s ⟨hs.1, hs.2.1, hs.2.2.1⟩]

theorem plainName_append (n sfx : String) (hn : PlainName n) (hs : '/' ∉ sfx.data)
    (hlen : 2 ≤ sfx.data.length) : PlainName (n ++ sfx) := by
  have hdata : (n ++ sfx).data = n.data ++ sfx.data := String.data_append n sfx
  have hlen' : 3 ≤ (n ++ sfx).data.length := by
    have : 0 < n.data.length := by
      rcases n with ⟨l⟩
      cases l with
      | nil => exact absurd rfl hn.1
      | cons c cs => simp
    rw [hdata, List.length_append]
    omega
  refine ⟨?_, ?_, ?_, ?_⟩
  · intro h
    rw [h] at hlen'
    simp at hlen'
  · intro h
    rw [h] at hlen'
    simp at hlen'
  · intro h
    rw [h] at hlen'
    simp at hlen'
  · rw [hdata]
    intro h
    rcases List.mem_append.mp h with h | h
    · exact hn.2.2.2 h
    · exact hs h

theorem append_ne_self (n sfx : String) (h : 0 < sfx.data.length) : n ++ sfx ≠ n := by
  intro he
  have := congrArg (fun s : String => s.data.length) he
  simp only [String.data_append, List.length_append] at this
  omega

theorem tmp_ne_zip (n : String) : n ++ ".tmp" ≠ n ++ ".zip" := by
  intro he
  have := congrArg String.data he
  simp only [String.data_append, List.append_cancel_left_eq] at this
  exact absurd this (by decide)


theorem child_not_dir (fs : FS) (tmp : Path) (x : String) (hwf : fs.WellFormed)
    (hnd : fs.isDir tmp = false) :
    ({ fs with dirs := tmp :: fs.dirs } : FS).isDir (tmp ++ [x]) = false := by
  have h1 : tmp ++ [x] ∉ fs.dirs := by
    intro hm
    have := hwf.1 _ hm
    rw [List.dropLast_concat] at this
    rw [this] at hnd
    cases hnd
  have h2 : tmp ++ [x] ≠ tmp := by
    intro h
    have := congrArg List.length h
    simp at this
  simp [FS.isDir, h1, h2]

theorem no_file_below (fs : FS) (tmp : Path) (hwf : fs.WellFormed)
    (hnd : fs.isDir tmp = false) : ∀ e ∈ fs.files, e.1.dropLast ≠ tmp := by
  intro e he h
  have := hwf.2 e he
  rw [h, hnd] at this
  cases this

theorem FS.writeFile_ok (fs : FS) (p : Path) (b : Bytes) (hv : pathError p = none)
    (hd : fs.isDir p = false) (hp : fs.isDir p.dropLast = true) :
    fs.writeFile p b =
      Except.ok ⟨fs.dirs, (p, ⟨b, true⟩) :: fs.files.filter (fun e => e.1 != p)⟩ := by
  simp [FS.writeFile, hv, hd, hp]

theorem FS.rename_ok (fs : FS) (old new : Path) (f : File) (hl : fs.lookup old = some f)
    (hv : pathError new = none)
    (hd : fs.isDir new = false) (hp : fs.isDir new.dropLast = true) :
    fs.rename old new =
      Except.ok ⟨fs.dirs, (new, f) :: fs.files.filter (fun e => e.1 != old && e.1 != new)⟩ := by
  simp [FS.rename, hl, hv, hd, hp]

theorem utf8ByteSize_go_append (a b : List Char) :
    String.utf8ByteSize.go (a ++ b) = String.utf8ByteSize.go a + String.utf8ByteSize.go b := by
  induction a with
  | nil => simp [String.utf8ByteSize.go]
  | cons c cs ih =>
    show String.utf8ByteSize.go (cs ++ b) + c.utf8Size =
      (String.utf8ByteSize.go cs + c.utf8Size) + String.utf8ByteSize.go b
    rw [ih]
    omega

theorem utf8ByteSize_append (a b : String) :
    (a ++ b).utf8ByteSize = a.utf8ByteSize + b.utf8ByteSize := by
  rcases a with ⟨a⟩
  rcases b with ⟨b⟩
  show String.utf8ByteSize.go (a ++ b) = _
  exact utf8ByteSize_go_append a b

theorem pathBytes_concat (p : Path) (x : String) :
    pathBytes (p ++ [x]) = pathBytes p + (x.utf8ByteSize + 1) := by
  simp [pathBytes, List.sum_append]

theorem pathError_eq_none (p : Path) :
    pathError p = none ↔
      (∀ c ∈ p, Char.ofNat 0 ∉ c.data ∧ c.utf8ByteSize ≤ NAME_MAX) ∧ pathBytes p < PATH_MAX := by
  unfold pathError
  constructor
  · intro h
    split at h
    · cases h
    · rename_i h1
      split at h
      · cases h
      · rename_i h2
        simp only [List.any_eq_true, not_exists, not_and, Bool.or_eq_true, decide_eq_true_eq,
          not_or, not_lt, not_le] at h1 h2
        exact ⟨fun c hc => ⟨by simpa using h1 c hc, h2.1 c hc⟩, h2.2⟩
  · rintro ⟨h1, h2⟩
    have e1 : ¬ (p.any (fun c => c.data.contains (Char.ofNat 0)) = true) := by
      simp only [List.any_eq_true, not_exists, not_and]
      intro c hc
      simpa using (h1 c hc).1
    have e2 : ¬ ((p.any (fun c => decide (NAME_MAX < c.utf8ByteSize)) ||
        decide (PATH_MAX ≤ pathBytes p)) = true) := by
      simp only [Bool.or_eq_true, List.any_eq_true, decide_eq_true_eq, not_or, not_exists,
        not_and, not_lt, not_le]
      exact ⟨fun c hc => (h1 c hc).2, h2⟩
    rw [if_neg e1, if_neg e2]

theorem pathError_concat (p : Path) (x y : String) (h : pathError (p ++ [x]) = none)
    (hnul : Char.ofNat 0 ∉ y.data) (hle : y.utf8ByteSize ≤ x.utf8ByteSize) :
    pathError (p ++ [y]) = none := by
  rw [pathError_eq_none] at h ⊢
  obtain ⟨h1, h2⟩ := h
  have hx := h1 x (by simp)
  constructor
  · intro c hc
    rcases List.mem_append.mp hc with hc | hc
    · exact h1 c (List.mem_append_left _ hc)
    · have : c = y := by simpa using hc
      subst this
      exact ⟨hnul, le_trans hle hx.2⟩
  · rw [pathBytes_concat] at h2 ⊢
    omega

theorem pathError_init (p : Path) (x : String) (h : pathError (p ++ [x]) = none) :
    pathError p = none := by
  rw [pathError_eq_none] at h ⊢
  obtain ⟨h1, h2⟩ := h
  refine ⟨fun c hc => h1 c (List.mem_append_left _ hc), ?_⟩
  rw [pathBytes_concat] at h2
  omega

theorem FS.lookup_head (dirs : List Path) (p : Path) (f : File) (rest : List (Path × File)) :
    (⟨dirs, (p, f) :: rest⟩ : FS).lookup p = some f := by
  simp [FS.lookup]

theorem FS.isDir_mk (dirs : List Path) (files files' : List (Path × File)) (p : Path) :
    (⟨dirs, files⟩ : FS).isDir p = (⟨dirs, files'⟩ : FS).isDir p := rfl

theorem filesIn_after_rename (dirs : List Path) (files : List (Path × File)) (tmp : Path)
    (old x : String) (f : File) (hx : x ≠ old)
    (hbelow : ∀ e ∈ files, e.1.dropLast ≠ tmp) :
    (⟨dirs, (tmp ++ [x], f) ::
        ((tmp ++ [old], f) :: files.filter (fun e => e.1 != tmp ++ [old])).filter
          (fun e => e.1 != tmp ++ [old] && e.1 != tmp ++ [x])⟩ : FS).filesIn tmp
      = [(tmp ++ [x], f)] ∧
    (⟨dirs, (tmp ++ [x], f) ::
        ((tmp ++ [old], f) :: files.filter (fun e => e.1 != tmp ++ [old])).filter
          (fun e => e.1 != tmp ++ [old] && e.1 != tmp ++ [x])⟩ : FS).lookup (tmp ++ [old])
      = none := by
  constructor
  · simp only [FS.filesIn]
    rw [List.filter_cons]
    have h1 : ((tmp ++ [x] != []) && (tmp ++ [x]).dropLast == tmp) = true := by
      simp [List.dropLast_concat]
    rw [if_pos h1]
    congr 1
    rw [List.filter_eq_nil_iff]
    intro e he
    have he' := List.mem_of_mem_filter he
    rcases List.mem_cons.mp he' with rfl | he''
    · have := (List.mem_filter.mp he).2
      simp at this
    · have := hbelow e (List.mem_of_mem_filter he'')
      simp [this]
  · simp only [FS.lookup, Option.map_eq_none', List.find?_eq_none]
    intro e he
    rcases List.mem_cons.mp he with rfl | he
    · simpa using hx
    · have := (List.mem_filter.mp he).2
      simp only [Bool.and_eq_true, bne_iff_ne, ne_eq] at this
      simpa using this.1

theorem downloadArchive_literal_run (cl : Client) (b : Bytes) (u n : String) (w : World)
    (hn : PlainName n) (hwf : w.fs.WellFormed)
    (hv : pathError (Join w.tempDir (w.uuid w.uuidCount) ++ [n ++ ".tmp"]) = none)
    (hnd : w.fs.isDir (Join w.tempDir (w.uuid w.uuidCount)) = false)
    (hnf : w.fs.lookup (Join w.tempDir (w.uuid w.uuidCount)) = none)
    (hpar : w.fs.isDir (Join w.tempDir (w.uuid w.uuidCount)).dropLast = true) :
    (downloadArchive cl ⟨ArchiveType.literal, b, u⟩ n w).out = Outcome.ret none ∧
    (downloadArchive cl ⟨ArchiveType.literal, b, u⟩ n w).events = [] ∧
    (downloadArchive cl ⟨ArchiveType.literal, b, u⟩ n w).world.fs.filesIn
        (Join w.tempDir (w.uuid w.uuidCount)) =
      [(Join w.tempDir (w.uuid w.uuidCount) ++ [if zipMagic b then n ++ ".zip" else n],
        ⟨b, true⟩)] ∧
    (downloadArchive cl ⟨ArchiveType.literal, b, u⟩ n w).world.fs.lookup
        (Join w.tempDir (w.uuid w.uuidCount) ++ [n ++ ".tmp"]) = none := by
  generalize htmp : Join w.tempDir (w.uuid w.uuidCount) = tmp at hv hnd hnf hpar ⊢
  have hnul : Char.ofNat 0 ∉ n.data := by
    intro hm
    have := ((pathError_eq_none _).mp hv).1 (n ++ ".tmp") (by simp)
    exact this.1 (by rw [String.data_append]; exact List.mem_append_left _ hm)
  have hvt : pathError tmp = none := pathError_init tmp _ hv
  have hvz : pathError (tmp ++ [n ++ ".zip"]) = none :=
    pathError_concat tmp (n ++ ".tmp") (n ++ ".zip") hv
      (by
        rw [String.data_append]
        intro hm
        rcases List.mem_append.mp hm with hm | hm
        · exact hnul hm
        · revert hm
          decide)
      (by
        have e1 : ".zip".utf8ByteSize = 4 := by decide
        have e2 : ".tmp".utf8ByteSize = 4 := by decide
        rw [utf8ByteSize_append, utf8ByteSize_append, e1, e2])
  have hvn : pathError (tmp ++ [n]) = none :=
    pathError_concat tmp (n ++ ".tmp") n hv hnul
      (by rw [utf8ByteSize_append]; omega)
  have hclean : IsCleanPath tmp := htmp ▸ Join_isClean _ _
  have hpt : PlainName (n ++ ".tmp") := plainName_append n ".tmp" hn (by decide) (by decide)
  have hpz : PlainName (n ++ ".zip") := plainName_append n ".zip" hn (by decide) (by decide)
  have hj1 := Join_of_plain tmp _ hclean hpt
  have hj2 := Join_of_plain tmp _ hclean hpz
  have hj3 := Join_of_plain tmp _ hclean hn
  have hc1 := child_not_dir w.fs tmp (n ++ ".tmp") hwf hnd
  have hc2 := child_not_dir w.fs tmp (n ++ ".zip") hwf hnd
  have hc3 := child_not_dir w.fs tmp n hwf hnd
  have hbelow := no_file_below w.fs tmp hwf hnd
  have hne1 : n ++ ".tmp" ≠ n := append_ne_self n ".tmp" (by decide)
  have hne2 := tmp_ne_zip n
  have hmk : w.fs.mkdir tmp = Except.ok ⟨tmp :: w.fs.dirs, w.fs.files⟩ := by
    simp [FS.mkdir, hvt, hnd, hnf, hpar]
  have hself : (⟨tmp :: w.fs.dirs, w.fs.files⟩ : FS).isDir tmp = true := by
    simp [FS.isDir]
  have hwr := FS.writeFile_ok ⟨tmp :: w.fs.dirs, w.fs.files⟩ (tmp ++ [n ++ ".tmp"]) b hv hc1
    (by rw [List.dropLast_concat]; exact hself)
  have hlk := FS.lookup_head (tmp :: w.fs.dirs) (tmp ++ [n ++ ".tmp"]) ⟨b, true⟩
    (w.fs.files.filter (fun e => e.1 != tmp ++ [n ++ ".tmp"]))
  have hrd : (⟨tmp :: w.fs.dirs, (tmp ++ [n ++ ".tmp"], ⟨b, true⟩) ::
      w.fs.files.filter (fun e => e.1 != tmp ++ [n ++ ".tmp"])⟩ : FS).readFile
      (tmp ++ [n ++ ".tmp"]) = Except.ok b := by
    rw [FS.readFile, hlk]
    rfl
  by_cases hz : zipMagic b = true
  · have hr := FS.rename_ok _ _ (tmp ++ [n ++ ".zip"]) _ hlk hvz
      ((FS.isDir_mk _ _ _ _).trans hc2)
      (by rw [List.dropLast_concat]; exact (FS.isDir_mk _ _ _ _).trans hself)
    have hf := filesIn_after_rename (tmp :: w.fs.dirs) w.fs.files tmp (n ++ ".tmp")
      (n ++ ".zip") ⟨b, true⟩ hne2.symm hbelow
    simp only [downloadArchive, newUuid, getWorld, osMkdir, run_bind, M.bind, M.pure, htmp,
      hmk, setFS, ioutilWriteFile, hj1, hj2, hj3, hwr, zipMatch, hrd, osRename, hr, hz, if_true,
      run_pure, List.nil_append, true_and, Bool.false_eq_true, reduceIte,
      List.append_nil]
    exact ⟨hf.1, hf.2⟩
  · have hr := FS.rename_ok _ _ (tmp ++ [n]) _ hlk hvn
      ((FS.isDir_mk _ _ _ _).trans hc3)
      (by rw [List.dropLast_concat]; exact (FS.isDir_mk _ _ _ _).trans hself)
    have hf := filesIn_after_rename (tmp :: w.fs.dirs) w.fs.files tmp (n ++ ".tmp")
      n ⟨b, true⟩ hne1.symm hbelow
    simp only [downloadArchive, newUuid, getWorld, osMkdir, run_bind, M.bind, M.pure, htmp,
      hmk, setFS, ioutilWriteFile, hj1, hj2, hj3, hwr, zipMatch, hrd, osRename, hr, hz, if_true,
      run_pure, List.nil_append, true_and, Bool.false_eq_true, reduceIte,
      if_false, List.append_nil]
    exact ⟨hf.1, hf.2⟩



theorem filterMap_append_of_none {α β : Type} (g : α → Option β) (l1 l2 : List α)
    (h : ∀ a ∈ l1, g a = none) : (l1 ++ l2).filterMap g = l2.filterMap g := by
  rw [List.filterMap_append, filterMap_eq_nil_of_forall g l1 h, List.nil_append]

theorem bind_events_of_ret {α β : Type} (m : M α) (f : α → M β) (w w1 : World) (a : α)
    (es : List Event) (hm : m w = ⟨Outcome.ret a, w1, es⟩) :
    (M.bind m f w).events = es ++ (f a w1).events := by
  simp only [M.bind, hm]

theorem createPackagePersist_created (cl : Client) (spec : PackageSpec) (st : BuildStatus)
    (w : World) :
    (createPackagePersist cl spec st w).events.filterMap Event.createdPackage =
      [{ Metadata := { Name := ToLower (w.uuid w.uuidCount), Namespace := NamespaceDefault },
         Spec := { spec with Status := { BuildStatus := st } } }] := by
  obtain ⟨r, hout, hev⟩ := PackageCreate_run cl
    { Metadata := { Name := ToLower (w.uuid w.uuidCount), Namespace := NamespaceDefault },
      Spec := { spec with Status := { BuildStatus := st } } }
    { w with uuidCount := w.uuidCount + 1 }
  rcases hc : cl.PackageCreate
    { Metadata := { Name := ToLower (w.uuid w.uuidCount), Namespace := NamespaceDefault },
      Spec := { spec with Status := { BuildStatus := st } } }
    { w with uuidCount := w.uuidCount + 1 } with ⟨o, w1, es⟩
  rw [hc] at hout hev
  simp only at hout hev
  subst hout hev
  rcases r with ⟨meta, e⟩
  cases e <;>
    simp [createPackagePersist, newUuid, run_bind, M.bind, M.pure, hc, checkErr_run, emit,
      Event.createdPackage]

theorem createPackageAfterDeploy_created (L : Int) (cl : Client) (src : String)
    (spec : PackageSpec) (w : World) (h0 : NoFaults w.faults)
    (hsrc : src ≠ "" →
      ∃ f, w.fs.lookup (resolve w.cwd src) = some f ∧ f.readable = true) :
    ∃ pkg, (createPackageAfterDeploy L cl src spec w).events.filterMap Event.createdPackage
        = [pkg] ∧
      pkg.Spec.Status.BuildStatus =
        (if src = "" then BuildStatus.succeeded else BuildStatus.pending) ∧
      pkg.Spec.Environment = spec.Environment ∧ pkg.Spec.Description = spec.Description := by
  by_cases hs : src = ""
  · simp only [createPackageAfterDeploy, run_bind, hs, (len_eq_zero "").mpr rfl,
      gt_iff_lt, lt_irrefl, if_false, pure_bind_run]
    exact ⟨_, createPackagePersist_created cl _ _ w, by simp, rfl, rfl⟩
  · have hlen := len_pos_of_ne _ hs
    obtain ⟨f, hl, hr⟩ := hsrc hs
    obtain ⟨⟨a, ha⟩, -, -, -, -, hev⟩ := createArchive_ok L cl src w f hl hr h0
    rcases hc : createArchive L cl src w with ⟨o, w1, es⟩
    rw [hc] at ha hev
    simp only at ha hev
    subst ha
    have hq : ∀ e ∈ es, Event.createdPackage e = none := by
      intro e he
      obtain ⟨_, _, _, rfl⟩ := hev e he
      rfl
    have hevs : (createPackageAfterDeploy L cl src spec w).events =
        es ++ (createPackagePersist cl { spec with Source := a } BuildStatus.pending w1).events := by
      simp only [createPackageAfterDeploy, run_bind, hlen, gt_iff_lt, if_true]
      rw [bind_events_of_ret _ _ _ _ _ _ hc]
      simp only [run_bind, pure_bind_run]
    refine ⟨{ Metadata := { Name := ToLower (w1.uuid w1.uuidCount),
                            Namespace := NamespaceDefault },
              Spec := { spec with Source := a, Status := { BuildStatus := BuildStatus.pending } } },
      ?_, ?_, rfl, rfl⟩
    · rw [hevs, filterMap_append_of_none _ _ _ hq]
      exact createPackagePersist_created cl { spec with Source := a } BuildStatus.pending w1
    · simp [hs]

theorem createPackage_created (L : Int) (cl : Client) (env src deploy desc : String)
    (w : World) (h0 : NoFaults w.faults)
    (hsrc : src ≠ "" →
      ∃ f, w.fs.lookup (resolve w.cwd src) = some f ∧ f.readable = true)
    (hdep : deploy ≠ "" →
      ∃ f, w.fs.lookup (resolve w.cwd deploy) = some f ∧ f.readable = true) :
    ∃ pkg, (createPackage L cl env src deploy desc w).events.filterMap Event.createdPackage
        = [pkg] ∧
      pkg.Spec.Status.BuildStatus =
        (if src = "" then BuildStatus.succeeded else BuildStatus.pending) ∧
      pkg.Spec.Environment.Name = env ∧ pkg.Spec.Description = desc := by
  rw [createPackage_eq]
  by_cases hd : deploy = ""
  · simp only [run_bind, hd, (len_eq_zero "").mpr rfl, gt_iff_lt, lt_irrefl, if_false,
      pure_bind_run]
    obtain ⟨pkg, h1, h2, h3, h4⟩ := createPackageAfterDeploy_created L cl src
      { Environment := { Namespace := NamespaceDefault, Name := env }, Description := desc }
      w h0 hsrc
    exact ⟨pkg, h1, h2, by rw [h3], by rw [h4]⟩
  · have hlen := len_pos_of_ne _ hd
    obtain ⟨f, hl, hr⟩ := hdep hd
    obtain ⟨⟨a, ha⟩, -, hfl, hfs, hcwd, hev⟩ := createArchive_ok L cl deploy w f hl hr h0
    rcases hc : createArchive L cl deploy w with ⟨o, w1, es⟩
    rw [hc] at ha hfl hfs hcwd hev
    simp only at ha hfl hfs hcwd hev
    subst ha
    have hq : ∀ e ∈ es, Event.createdPackage e = none := by
      intro e he
      obtain ⟨_, _, _, rfl⟩ := hev e he
      rfl
    obtain ⟨pkg, h1, h2, h3, h4⟩ := createPackageAfterDeploy_created L cl src
      { Environment := { Namespace := NamespaceDefault, Name := env }, Description := desc,
        Deployment := a }
      w1 hfl (by rw [hfs, hcwd]; exact hsrc)
    refine ⟨pkg, ?_, h2, by rw [h3], by rw [h4]⟩
    simp only [run_bind, hlen, gt_iff_lt, if_true]
    rw [bind_events_of_ret _ _ _ _ _ _ hc, filterMap_append_of_none _ _ _ hq]
    by_cases hs : 0 < len src
    · simp only [run_bind, hs, if_true]
      rw [bind_events_of_ret _ _ w1 w1 () [Event.stdout
        "Deployment may be overwritten by builder manager after source package compilation\n"]
        rfl]
      simp only [run_bind, pure_bind_run]
      rw [filterMap_append_of_none _ _ _ (by intro e he; simp at he; subst he; rfl)]
      exact h1
    · simp only [run_bind, hs, if_false, pure_bind_run]
      exact h1

theorem packageUpdate_of_newPackageMeta (es : List Event) (m : ObjectMeta)
    (h : es.filterMap Event.newPackageMeta = [m]) :
    ∃ pkg, Event.packageUpdate pkg m none ∈ es := by
  have hm : m ∈ es.filterMap Event.newPackageMeta := by rw [h]; exact List.mem_singleton.mpr rfl
  obtain ⟨e, he, hem⟩ := List.mem_filterMap.mp hm
  cases e with
  | packageUpdate pkg r err =>
    cases err with
    | none =>
      simp only [Event.newPackageMeta, Option.some.injEq] at hem
      subst hem
      exact ⟨pkg, he⟩
    | some x => simp [Event.newPackageMeta] at hem
  | _ => simp [Event.newPackageMeta] at hem

/-! ## The claims -/

/-- Claim C1: for a readable file with contents `f.data`, `createArchive`
returns a Literal archive holding exactly these bytes, without any upload and
without touching the world, when the size is below `ArchiveLiteralSizeLimit`;
when the size is at or above the limit (a file of exactly the limit included)
and the storage service answers the upload, it returns a Url archive whose
URL is the one the storage client gives for the uploaded content and whose
Literal field is empty, and the upload is the only remote call. -/
theorem createArchive_literal_below_limit_url_otherwise (L : Int) (client : Client)
    (fileName : String) (w : World) (f : File)
    (hf : w.fs.lookup (resolve w.cwd fileName) = some f) (hr : f.readable = true) :
    ((f.data.length : Int) < L →
      createArchive L client fileName w =
        ⟨Outcome.ret { Type_ := ArchiveType.literal, Literal := f.data, URL := "" }, w, []⟩) ∧
    (L ≤ (f.data.length : Int) → nextFault w.faults = none →
      (createArchive L client fileName w).out =
        Outcome.ret { Type_ := ArchiveType.url, Literal := [],
                      URL := w.getUrl (TrimSuffix client.Url "/" ++ "/proxy/storage")
                        (w.uuid w.uuidCount) } ∧
      (createArchive L client fileName w).events =
        [Event.upload (TrimSuffix client.Url "/" ++ "/proxy/storage") fileName
          (w.uuid w.uuidCount) none] ∧
      (createArchive L client fileName w).world.archives =
        (w.uuid w.uuidCount, f.data) :: w.archives) ∧
    ((f.data.length : Int) = L → nextFault w.faults = none →
      ∃ u, (createArchive L client fileName w).out =
        Outcome.ret { Type_ := ArchiveType.url, Literal := [], URL := u }) := by
  have key : L ≤ (f.data.length : Int) → nextFault w.faults = none →
      (createArchive L client fileName w).out =
        Outcome.ret { Type_ := ArchiveType.url, Literal := [],
                      URL := w.getUrl (TrimSuffix client.Url "/" ++ "/proxy/storage")
                        (w.uuid w.uuidCount) } ∧
      (createArchive L client fileName w).events =
        [Event.upload (TrimSuffix client.Url "/" ++ "/proxy/storage") fileName
          (w.uuid w.uuidCount) none] ∧
      (createArchive L client fileName w).world.archives =
        (w.uuid w.uuidCount, f.data) :: w.archives := by
    intro hge hok
    refine (createArchive_run_by_size L client fileName w f hf hr).2 hge ?_
    intro e he
    cases hfs : w.faults with
    | nil => simp [hfs] at he
    | cons o rest =>
      simp only [hfs, List.head?_cons, Option.some.injEq] at he
      subst he
      simp [hfs, nextFault] at hok
  exact ⟨(createArchive_run_by_size L client fileName w f hf hr).1, key,
    fun heq hok => ⟨_, (key (le_of_eq heq.symm) hok).1⟩⟩

/-- A file of six bytes with a limit of four bytes is uploaded, and the archive
carries the URL of the stored content. -/
theorem createArchive_literal_below_limit_url_otherwise_witness :
    (createArchive 4 demoClient "bin.zip" demoWorld).out =
      Outcome.ret { Type_ := ArchiveType.url, Literal := [],
                    URL := "http://controller/proxy/storage/archive?id=3F2A" } :=
  ((createArchive_literal_below_limit_url_otherwise 4 demoClient "bin.zip" demoWorld
    ⟨[0x50, 0x4B, 3, 4, 9, 9], true⟩ (by decide) rfl).2.1 (by decide) (by decide)).1


/-- Claim C2: whatever environment name, description, source path and
deployment path `createPackage` is given, and in whatever world it runs, a
package it hands to `PackageCreate` has build status Pending exactly when the
source path is non-empty, and Succeeded when the source path is empty
(deployment only, or no archive at all).  And a package is handed over: when
the files named are readable and no remote call fails in transport,
`createPackage` calls `PackageCreate` exactly once, with a package of that
build status, the environment name and the description given. -/
theorem createPackage_status_pending_iff_source (L : Int) (client : Client)
    (envName srcPkgName deployPkgName description : String) (w : World) :
    (∀ pkg m err,
      Event.packageCreate pkg m err ∈
        (createPackage L client envName srcPkgName deployPkgName description w).events →
      (pkg.Spec.Status.BuildStatus = BuildStatus.pending ↔ srcPkgName ≠ "") ∧
      (srcPkgName = "" → pkg.Spec.Status.BuildStatus = BuildStatus.succeeded)) ∧
    (NoFaults w.faults →
      (srcPkgName ≠ "" →
        ∃ f, w.fs.lookup (resolve w.cwd srcPkgName) = some f ∧ f.readable = true) →
      (deployPkgName ≠ "" →
        ∃ f, w.fs.lookup (resolve w.cwd deployPkgName) = some f ∧ f.readable = true) →
      ∃ pkg,
        (createPackage L client envName srcPkgName deployPkgName description w).events.filterMap
          Event.createdPackage = [pkg] ∧
        (pkg.Spec.Status.BuildStatus = BuildStatus.pending ↔ srcPkgName ≠ "") ∧
        (srcPkgName = "" → pkg.Spec.Status.BuildStatus = BuildStatus.succeeded) ∧
        pkg.Spec.Environment.Name = envName ∧ pkg.Spec.Description = description) := by
  have key : ∀ pkg : Package,
      pkg.Spec.Status.BuildStatus =
        (if srcPkgName = "" then BuildStatus.succeeded else BuildStatus.pending) →
      (pkg.Spec.Status.BuildStatus = BuildStatus.pending ↔ srcPkgName ≠ "") ∧
      (srcPkgName = "" → pkg.Spec.Status.BuildStatus = BuildStatus.succeeded) := by
    intro pkg hs
    by_cases hsrc : srcPkgName = ""
    · simp [hsrc] at hs
      simp [hs, hsrc]
    · simp [hsrc] at hs
      simp [hs, hsrc]
  constructor
  · intro pkg m err h
    exact key pkg
      (createPackage_events L client envName srcPkgName deployPkgName description w pkg m err h)
  · intro h0 hsrc hdep
    obtain ⟨pkg, h1, h2, h3, h4⟩ :=
      createPackage_created L client envName srcPkgName deployPkgName description w h0 hsrc hdep
    exact ⟨pkg, h1, (key pkg h2).1, (key pkg h2).2, h3, h4⟩

/-- In the demo world a create with only the deployment file `bin.zip` hands
one package to `PackageCreate`, with status Succeeded; with the source file
`handler.py` as well, it hands over one package with status Pending. -/
theorem createPackage_status_pending_iff_source_witness :
    (∃ pkg,
      (createPackage 262144 demoClient "python" "" "bin.zip" "d" demoWorld).events.filterMap
        Event.createdPackage = [pkg] ∧
      pkg.Spec.Status.BuildStatus = BuildStatus.succeeded) ∧
    (∃ pkg,
      (createPackage 262144 demoClient "python" "handler.py" "bin.zip" "d"
        demoWorld).events.filterMap Event.createdPackage = [pkg] ∧
      pkg.Spec.Status.BuildStatus = BuildStatus.pending) ∧
    (createPackage 262144 demoClient "python" "handler.py" "bin.zip" "d"
      demoWorld).events.filterMap Event.createdPackage = [demoCreated] :=
  ⟨((createPackage_status_pending_iff_source 262144 demoClient "python" "" "bin.zip" "d"
      demoWorld).2 (fun _ h => absurd h (List.not_mem_nil _)) (fun h => absurd rfl h)
      (fun _ => ⟨⟨[0x50, 0x4B, 3, 4, 9, 9], true⟩, by decide, rfl⟩)).imp
      (fun _ h => ⟨h.1, h.2.2.1 rfl⟩),
   ((createPackage_status_pending_iff_source 262144 demoClient "python" "handler.py" "bin.zip"
      "d" demoWorld).2 (fun _ h => absurd h (List.not_mem_nil _))
      (fun _ => ⟨⟨[1, 2, 3], true⟩, by decide, rfl⟩)
      (fun _ => ⟨⟨[0x50, 0x4B, 3, 4, 9, 9], true⟩, by decide, rfl⟩)).imp
      (fun _ h => ⟨h.1, h.2.1.mpr (by decide)⟩),
   by decide⟩

/-- Claim C3: for an existing package `prior`, whatever its build status, a
record `pkgUpdate` hands to `PackageUpdate` has build status Pending whenever a
new environment name or a new source archive is supplied, and has the build
status of `prior` when neither is supplied (only deployment archive and/or
description).  And the record is persisted: with valid arguments, readable
files, the force flag set or no function using the package, and no remote call
failing in transport, `pkgUpdate` returns without error after a successful
`PackageUpdate` of a record with that build status. -/
theorem pkgUpdate_status_pending_or_kept (L : Int) (c : Context) (w : World)
    (prior : Package)
    (hp : w.store.findPackage { Namespace := NamespaceDefault, Name := c.name } = some prior) :
    (∀ pkg m err, Event.packageUpdate pkg m err ∈ (pkgUpdate L c w).events →
      (c.env ≠ "" ∨ c.src ≠ "" → pkg.Spec.Status.BuildStatus = BuildStatus.pending) ∧
      (c.env = "" → c.src = "" →
        pkg.Spec.Status.BuildStatus = prior.Spec.Status.BuildStatus)) ∧
    (c.server ≠ "" → c.name ≠ "" →
      ¬ (c.src = "" ∧ c.deploy = "" ∧ c.env = "" ∧ c.desc = "") →
      (c.f = true ∨ ∀ fn ∈ w.store.functions, fn.Spec.Package.PackageRef.Name ≠ c.name) →
      NoFaults w.faults →
      (c.src ≠ "" → ∃ f, w.fs.lookup (resolve w.cwd c.src) = some f ∧ f.readable = true) →
      (c.deploy ≠ "" →
        ∃ f, w.fs.lookup (resolve w.cwd c.deploy) = some f ∧ f.readable = true) →
      (pkgUpdate L c w).out = Outcome.ret none ∧
      ∃ pkg m, Event.packageUpdate pkg m none ∈ (pkgUpdate L c w).events ∧
        (c.env ≠ "" ∨ c.src ≠ "" → pkg.Spec.Status.BuildStatus = BuildStatus.pending) ∧
        (c.env = "" → c.src = "" →
          pkg.Spec.Status.BuildStatus = prior.Spec.Status.BuildStatus)) := by
  have key : ∀ pkg m err, Event.packageUpdate pkg m err ∈ (pkgUpdate L c w).events →
      (c.env ≠ "" ∨ c.src ≠ "" → pkg.Spec.Status.BuildStatus = BuildStatus.pending) ∧
      (c.env = "" → c.src = "" →
        pkg.Spec.Status.BuildStatus = prior.Spec.Status.BuildStatus) := by
    intro pkg m err h
    have hs := pkgUpdate_events L c w prior pkg m err hp h
    constructor
    · intro hc
      rw [hs, if_pos hc]
    · intro he hsrc
      rw [hs, if_neg]
      rintro (h1 | h1)
      · exact h1 he
      · exact h1 hsrc
  refine ⟨key, ?_⟩
  intro hs hn ha hgo h0 hsrc hdep
  have hgo' : c.f = true ∨
      w.store.functions.filter (fun fn => fn.Spec.Package.PackageRef.Name = c.name) = [] := by
    rcases hgo with h | h
    · exact Or.inl h
    · refine Or.inr ?_
      rw [List.filter_eq_nil_iff]
      intro fn hfn
      simpa using h fn hfn
  obtain ⟨ho, m, hm, -, -⟩ := pkgUpdate_ok L c w prior hs hn ha hgo' h0 hp hsrc hdep
  obtain ⟨pkg, hmem⟩ := packageUpdate_of_newPackageMeta _ m hm
  exact ⟨ho, pkg, m, hmem, key pkg m none hmem⟩

/-- In the demo world the forced update of the failed package with a new
source archive persists a Pending record; the update of the description
alone, without the force flag and with no function using the package, persists
a record that is still Failed. -/
theorem pkgUpdate_status_pending_or_kept_witness :
    demoPkg1.Spec.Status.BuildStatus = BuildStatus.failed ∧
    (∃ pkg m, Event.packageUpdate pkg m none ∈
        (pkgUpdate 262144 demoUpdateForce demoWorld).events ∧
      pkg.Spec.Status.BuildStatus = BuildStatus.pending) ∧
    (∃ pkg m, Event.packageUpdate pkg m none ∈
        (pkgUpdate 262144 demoDescribe demoWorldFree).events ∧
      pkg.Spec.Status.BuildStatus = BuildStatus.failed) :=
  ⟨rfl,
   (((pkgUpdate_status_pending_or_kept 262144 demoUpdateForce demoWorld demoPkg1
      (by decide)).2 (by decide) (by decide) (by decide) (Or.inl rfl)
      (fun _ h => absurd h (List.not_mem_nil _))
      (fun _ => ⟨⟨[1, 2, 3], true⟩, by decide, rfl⟩) (fun h => absurd rfl h)).2).imp
      (fun _ h => h.imp (fun _ h2 => ⟨h2.1, h2.2.1 (Or.inr (by decide))⟩)),
   (((pkgUpdate_status_pending_or_kept 262144 demoDescribe demoWorldFree demoPkg1
      (by decide)).2 (by decide) (by decide) (by decide) (Or.inr (by decide))
      (fun _ h => absurd h (List.not_mem_nil _))
      (fun h => absurd rfl h) (fun h => absurd rfl h)).2).imp
      (fun _ h => h.imp (fun _ h2 => ⟨h2.1, h2.2.2 rfl rfl⟩))⟩

/-- Claim C4: when at least one function references the package and the
force flag is unset, `pkgUpdate` terminates the process with status 1 and
mutates nothing: none of its events is an upload, a package write or a
function write, and the store, the storage service and the file system are
left as they were.  Repeating the call in the world it leaves behind is
rejected again with the store still unchanged, and without transport failures
the repeated run is the very same run. -/
theorem pkgUpdate_without_force_rejected (L : Int) (c : Context) (w : World)
    (hforce : c.f = false)
    (hdep : ∃ fn ∈ w.store.functions, fn.Spec.Package.PackageRef.Name = c.name) :
    (pkgUpdate L c w).out = Outcome.exit 1 ∧
    (∀ e ∈ (pkgUpdate L c w).events, e.mutates = false) ∧
    (pkgUpdate L c w).world.store = w.store ∧
    (pkgUpdate L c w).world.archives = w.archives ∧
    (pkgUpdate L c w).world.fs = w.fs ∧
    (pkgUpdate L c (pkgUpdate L c w).world).out = Outcome.exit 1 ∧
    (∀ e ∈ (pkgUpdate L c (pkgUpdate L c w).world).events, e.mutates = false) ∧
    (pkgUpdate L c (pkgUpdate L c w).world).world.store = w.store ∧
    (w.faults = [] → pkgUpdate L c (pkgUpdate L c w).world = pkgUpdate L c w) := by
  have hne : w.store.functions.filter
      (fun fn => fn.Spec.Package.PackageRef.Name = c.name) ≠ [] := by
    obtain ⟨fn, hfn, hname⟩ := hdep
    intro h
    have : fn ∈ w.store.functions.filter
        (fun fn => fn.Spec.Package.PackageRef.Name = c.name) :=
      List.mem_filter.mpr ⟨hfn, by simpa using hname⟩
    rw [h] at this
    cases this
  obtain ⟨ho, ⟨fs, hw, hfs⟩, hev⟩ := pkgUpdate_blocked_run L c w hforce hne
  obtain ⟨ho2, ⟨fs2, hw2, -⟩, hev2⟩ :=
    pkgUpdate_blocked_run L c { w with faults := fs } hforce hne
  refine ⟨ho, hev, by rw [hw], by rw [hw], by rw [hw], by rw [hw]; exact ho2,
    by rw [hw]; exact hev2, by rw [hw, hw2], ?_⟩
  intro h0
  have hww : (pkgUpdate L c w).world = w := by
    rw [hw, hfs h0, ← h0]
  rw [hww]

/-- The update of the demo package, which `fn1` uses, is rejected without the
force flag and leaves the store as it was. -/
theorem pkgUpdate_without_force_rejected_witness :
    (pkgUpdate 262144 demoUpdate demoWorld).out = Outcome.exit 1 ∧
    (pkgUpdate 262144 demoUpdate demoWorld).world.store = demoWorld.store :=
  ⟨(pkgUpdate_without_force_rejected 262144 demoUpdate demoWorld rfl
      ⟨demoFn1, by decide, by decide⟩).1,
   (pkgUpdate_without_force_rejected 262144 demoUpdate demoWorld rfl
      ⟨demoFn1, by decide, by decide⟩).2.2.1⟩

/-- Claim C8: when `FunctionList` returns the list `L` without error,
`getFunctionsByPackage` returns, without error, the functions of `L` whose
package reference is named `p`, in their order and multiplicity, as a non-nil
slice (the empty one when no function references `p`); when `FunctionList`
fails, it returns a nil slice and that error.  It returns an error exactly
when `FunctionList` does. -/
theorem getFunctionsByPackage_filters_by_name (client : Client) (p : String) (w w1 : World)
    (L : List Function) (err : Option String) (es : List Event)
    (h : client.FunctionList w = ⟨Outcome.ret (L, err), w1, es⟩) :
    (err = none →
      getFunctionsByPackage client p w =
        ⟨Outcome.ret (some (L.filter (fun fn => fn.Spec.Package.PackageRef.Name = p)), none),
          w1, es⟩) ∧
    (err = none → (∀ fn ∈ L, fn.Spec.Package.PackageRef.Name ≠ p) →
      (getFunctionsByPackage client p w).out = Outcome.ret (some [], none)) ∧
    (err ≠ none → getFunctionsByPackage client p w = ⟨Outcome.ret (none, err), w1, es⟩) ∧
    (∀ r, (getFunctionsByPackage client p w).out = Outcome.ret r → (r.2 ≠ none ↔ err ≠ none)) := by
  have hok : err = none →
      getFunctionsByPackage client p w =
        ⟨Outcome.ret (some (L.filter (fun fn => fn.Spec.Package.PackageRef.Name = p)), none),
          w1, es⟩ := by
    intro he
    subst he
    simp [getFunctionsByPackage, run_bind, M.bind, M.pure, h, foldl_append_filter]
  have herr : err ≠ none →
      getFunctionsByPackage client p w = ⟨Outcome.ret (none, err), w1, es⟩ := by
    intro he
    cases err with
    | none => exact absurd rfl he
    | some e => simp [getFunctionsByPackage, run_bind, M.bind, M.pure, h]
  refine ⟨hok, ?_, herr, ?_⟩
  · intro he hnone
    rw [hok he]
    have : L.filter (fun fn => fn.Spec.Package.PackageRef.Name = p) = [] := by
      rw [List.filter_eq_nil_iff]
      intro fn hfn
      simpa using hnone fn hfn
    simp [this]
  · intro r hr
    cases err with
    | none =>
      rw [hok rfl] at hr
      simp only [Outcome.ret.injEq] at hr
      subst hr
      simp
    | some e =>
      rw [herr (by simp)] at hr
      simp only [Outcome.ret.injEq] at hr
      subst hr
      simp

/-- Of the two functions of the demo world, the one that uses `pkg1` is
returned. -/
theorem getFunctionsByPackage_filters_by_name_witness :
    getFunctionsByPackage demoClient "pkg1" demoWorld =
      ⟨Outcome.ret (some [demoFn1], none), demoWorld,
        [Event.functionList [demoFn1, demoFn2] none]⟩ :=
  (getFunctionsByPackage_filters_by_name demoClient "pkg1" demoWorld demoWorld
    [demoFn1, demoFn2] none [Event.functionList [demoFn1, demoFn2] none] rfl).1 rfl


/-- Claim C5 (violated by the code): in the demo world `fn1` references
`pkg1`; when the function-list query of `pkgDelete` fails in transport and the
force flag is unset, the error is dropped, the delete is issued all the same,
the package is gone from the store although `fn1` still references it, and
`pkgDelete` returns without an error. -/
theorem pkgDelete_drops_list_error :
    demoDelete.f = false ∧
    demoFn1 ∈ demoWorldFailing.store.functions ∧
    demoFn1.Spec.Package.PackageRef.Name = demoDelete.name ∧
    demoWorldFailing.store.findPackage { Namespace := NamespaceDefault, Name := "pkg1" } =
      some demoPkg1 ∧
    (pkgDelete demoDelete demoWorldFailing).out = Outcome.ret none ∧
    (pkgDelete demoDelete demoWorldFailing).events =
      [Event.functionList [] (some "connection refused"),
       Event.packageDelete { Namespace := NamespaceDefault, Name := "pkg1" } none,
       Event.stdout "Package pkg1 is deleted\n"] ∧
    (pkgDelete demoDelete demoWorldFailing).world.store.findPackage
      { Namespace := NamespaceDefault, Name := "pkg1" } = none ∧
    demoFn1 ∈ (pkgDelete demoDelete demoWorldFailing).world.store.functions := by
  decide

/-- Claim C6: when the force flag is set, the arguments are valid, the
package exists, the files named are readable and no remote call fails,
`pkgUpdate` returns without error, writes the package once, and issues one
`FunctionUpdate` per function whose package reference names the package, in
the order of the function list; each record written is the original record
with only the resource version of its package reference replaced by the one
`PackageUpdate` returned.  No other function is written and no call failed. -/
theorem pkgUpdate_force_repoints_dependents (L : Int) (c : Context) (w : World)
    (prior : Package)
    (hs : c.server ≠ "") (hn : c.name ≠ "")
    (ha : ¬ (c.src = "" ∧ c.deploy = "" ∧ c.env = "" ∧ c.desc = ""))
    (hforce : c.f = true) (h0 : NoFaults w.faults)
    (hp : w.store.findPackage { Namespace := NamespaceDefault, Name := c.name } = some prior)
    (hsrc : c.src ≠ "" →
      ∃ f, w.fs.lookup (resolve w.cwd c.src) = some f ∧ f.readable = true)
    (hdep : c.deploy ≠ "" →
      ∃ f, w.fs.lookup (resolve w.cwd c.deploy) = some f ∧ f.readable = true) :
    (pkgUpdate L c w).out = Outcome.ret none ∧
    ∃ newMeta,
      (pkgUpdate L c w).events.filterMap Event.newPackageMeta = [newMeta] ∧
      (pkgUpdate L c w).events.filterMap Event.updatedFunction =
        (w.store.functions.filter (fun fn => fn.Spec.Package.PackageRef.Name = c.name)).map
          (fun fn => fn.withPackageVersion newMeta.ResourceVersion) ∧
      ∀ e ∈ (pkgUpdate L c w).events, e.failed = false :=
  pkgUpdate_ok L c w prior hs hn ha (Or.inl hforce) h0 hp hsrc hdep

/-- In the demo world the forced update writes `fn1`, the one function that
uses `pkg1`, with the new resource version 8, and it does not write `fn2`. -/
theorem pkgUpdate_force_repoints_dependents_witness :
    (pkgUpdate 262144 demoUpdateForce demoWorld).out = Outcome.ret none ∧
    (pkgUpdate 262144 demoUpdateForce demoWorld).events.filterMap Event.updatedFunction =
      [demoFn1.withPackageVersion "8"] :=
  ⟨(pkgUpdate_force_repoints_dependents 262144 demoUpdateForce demoWorld demoPkg1
      (by decide) (by decide) (by decide) rfl (fun _ h => absurd h (List.not_mem_nil _))
      (by decide) (fun _ => ⟨⟨[1, 2, 3], true⟩, by decide, rfl⟩) (fun h => absurd rfl h)).1,
   by decide⟩

/-- Claim C7 as stated fails: in the demo world, where `fn1` uses `pkg1`,
`pkgDelete` without the force flag terminates the process with status 1
instead of returning a nil error. -/
theorem pkgDelete_blocked_exits_with_status_one :
    demoDelete.f = false ∧
    demoFn1 ∈ demoWorld.store.functions ∧
    demoFn1.Spec.Package.PackageRef.Name = demoDelete.name ∧
    (pkgDelete demoDelete demoWorld).out = Outcome.exit 1 ∧
    (pkgDelete demoDelete demoWorld).out ≠ Outcome.ret none ∧
    (pkgDelete demoDelete demoWorld).events =
      [Event.functionList [demoFn1, demoFn2] none,
       Event.stderr "Package is used by multiple functions, use -f to force delete\n"] := by
  decide

/-- Claim C7, amended: when `pkgDelete` is called without the force flag for a
named package that has at least one dependent function, and the function-list
query is answered, the blocked delete is fatal: the process is terminated with
status 1, no writing call is issued and the store is unchanged; with a server
configured, the run consists of the list query and the message on standard
error. -/
theorem pkgDelete_blocked_is_fatal (c : Context) (w : World) (hn : c.name ≠ "")
    (hforce : c.f = false) (hlist : nextFault w.faults = none)
    (hdep : ∃ fn ∈ w.store.functions, fn.Spec.Package.PackageRef.Name = c.name) :
    (pkgDelete c w).out = Outcome.exit 1 ∧
    (pkgDelete c w).world.store = w.store ∧
    (∀ e ∈ (pkgDelete c w).events, e.mutates = false) ∧
    (c.server ≠ "" →
      (pkgDelete c w).events =
        [Event.functionList w.store.functions none,
         Event.stderr "Package is used by multiple functions, use -f to force delete\n"]) := by
  apply pkgDelete_blocked_run c w hn hforce hlist
  obtain ⟨fn, hfn, hname⟩ := hdep
  intro h
  have : fn ∈ w.store.functions.filter
      (fun fn => fn.Spec.Package.PackageRef.Name = c.name) :=
    List.mem_filter.mpr ⟨hfn, by simpa using hname⟩
  rw [h] at this
  cases this

/-- The blocked delete of the demo package ends the process with status 1 and
the package is still in the store. -/
theorem pkgDelete_blocked_is_fatal_witness :
    (pkgDelete demoDelete demoWorld).out = Outcome.exit 1 ∧
    (pkgDelete demoDelete demoWorld).world.store.findPackage
      { Namespace := NamespaceDefault, Name := "pkg1" } = some demoPkg1 :=
  ⟨(pkgDelete_blocked_is_fatal demoDelete demoWorld (by decide) rfl rfl
      ⟨demoFn1, by decide, by decide⟩).1,
   by decide⟩


/-- Claim C9 as stated fails: a destination name with a path separator makes
`downloadArchive` fail on the archive `createArchive` produced, although the
temporary directory is writable; nothing is left in the fresh directory. -/
theorem roundtrip_fails_for_nested_name :
    (createArchive 262144 demoClient "handler.py" demoWorld).out =
      Outcome.ret { Type_ := ArchiveType.literal, Literal := [1, 2, 3], URL := "" } ∧
    (downloadArchive demoClient { Type_ := ArchiveType.literal, Literal := [1, 2, 3], URL := "" }
      "a/b" (createArchive 262144 demoClient "handler.py" demoWorld).world).out =
      Outcome.ret (some "no such file or directory") ∧
    (downloadArchive demoClient { Type_ := ArchiveType.literal, Literal := [1, 2, 3], URL := "" }
      "a/b" (createArchive 262144 demoClient "handler.py" demoWorld).world).world.fs.isDir
      ["tmp", "3F2A"] = true ∧
    (downloadArchive demoClient { Type_ := ArchiveType.literal, Literal := [1, 2, 3], URL := "" }
      "a/b" (createArchive 262144 demoClient "handler.py" demoWorld).world).world.fs.filesIn
      ["tmp", "3F2A"] = [] := by
  decide

/-- Claim C9, amended: for a readable file below the limit and a destination
name `n` that is a single path element, such that the path of the temporary
file `n.tmp` in the fresh directory is one the system accepts (no NUL byte, no
element over `NAME_MAX` bytes, the whole path within `PATH_MAX`), in a
well-formed file system where the fresh temporary directory can be made,
`createArchive` returns the Literal archive of the file (leaving the world as
it was), and `downloadArchive` on that archive succeeds and leaves exactly one
file in the fresh directory, named `n.zip` when the bytes start with the zip
signature and `n` otherwise, with the bytes of the original file; no file is
left under `n.tmp`. -/
theorem roundtrip_literal_plain_name (L : Int) (client : Client) (fileName n : String)
    (w : World) (f : File)
    (hf : w.fs.lookup (resolve w.cwd fileName) = some f) (hr : f.readable = true)
    (hlt : (f.data.length : Int) < L) (hn : PlainName n) (hwf : w.fs.WellFormed)
    (hv : pathError (Join w.tempDir (w.uuid w.uuidCount) ++ [n ++ ".tmp"]) = none)
    (hnd : w.fs.isDir (Join w.tempDir (w.uuid w.uuidCount)) = false)
    (hnf : w.fs.lookup (Join w.tempDir (w.uuid w.uuidCount)) = none)
    (hpar : w.fs.isDir (Join w.tempDir (w.uuid w.uuidCount)).dropLast = true) :
    createArchive L client fileName w =
      ⟨Outcome.ret { Type_ := ArchiveType.literal, Literal := f.data, URL := "" }, w, []⟩ ∧
    (downloadArchive client { Type_ := ArchiveType.literal, Literal := f.data, URL := "" }
      n w).out = Outcome.ret none ∧
    (downloadArchive client { Type_ := ArchiveType.literal, Literal := f.data, URL := "" }
      n w).world.fs.filesIn (Join w.tempDir (w.uuid w.uuidCount)) =
      [(Join w.tempDir (w.uuid w.uuidCount) ++ [if zipMagic f.data then n ++ ".zip" else n],
        ⟨f.data, true⟩)] ∧
    (downloadArchive client { Type_ := ArchiveType.literal, Literal := f.data, URL := "" }
      n w).world.fs.lookup (Join w.tempDir (w.uuid w.uuidCount) ++ [n ++ ".tmp"]) = none := by
  have hd := downloadArchive_literal_run client f.data "" n w hn hwf hv hnd hnf hpar
  exact ⟨(createArchive_run_by_size L client fileName w f hf hr).1 hlt, hd.1, hd.2.2.1, hd.2.2.2⟩

/-- The three bytes of `handler.py` come back in the file `out` of the fresh
directory. -/
theorem roundtrip_literal_plain_name_witness :
    (downloadArchive demoClient { Type_ := ArchiveType.literal, Literal := [1, 2, 3], URL := "" }
      "out" demoWorld).world.fs.filesIn ["tmp", "3F2A"] =
      [(["tmp", "3F2A", "out"], ⟨[1, 2, 3], true⟩)] :=
  (roundtrip_literal_plain_name 262144 demoClient "handler.py" "out" demoWorld
    ⟨[1, 2, 3], true⟩ (by decide) rfl (by decide)
    ⟨by decide, by decide, by decide, by decide⟩ ⟨by decide, by decide⟩
    (by decide) (by decide) (by decide) (by decide)).2.2.1

/-- Claim C10 as stated fails: for the empty file of the demo world
`createArchive` returns an archive of type Literal in which neither the
Literal nor the URL field is populated. -/
theorem createArchive_empty_file_populates_nothing :
    demoWorld.fs.lookup (resolve demoWorld.cwd "empty") = some ⟨[], true⟩ ∧
    (createArchive 262144 demoClient "empty" demoWorld).out =
      Outcome.ret { Type_ := ArchiveType.literal, Literal := [], URL := "" } := by
  decide

/-- Claim C10, amended: for a readable file that is not empty, and a storage
client that returns non-empty URLs, every archive `createArchive` returns has
exactly one of its Literal and URL fields populated, the one its type names;
for an empty file (and a positive limit) the archive is of type Literal with
both fields empty. -/
theorem createArchive_one_field_populated (L : Int) (client : Client) (fileName : String)
    (w : World) (f : File)
    (hf : w.fs.lookup (resolve w.cwd fileName) = some f) (hr : f.readable = true)
    (hurl : ∀ u id, w.getUrl u id ≠ "") :
    (f.data ≠ [] → ∀ a, (createArchive L client fileName w).out = Outcome.ret a →
      (a.Type_ = ArchiveType.literal ∧ a.Literal ≠ [] ∧ a.URL = "") ∨
      (a.Type_ = ArchiveType.url ∧ a.URL ≠ "" ∧ a.Literal = [])) ∧
    (f.data = [] → 0 < L →
      (createArchive L client fileName w).out =
        Outcome.ret { Type_ := ArchiveType.literal, Literal := [], URL := "" }) := by
  constructor
  · intro hne a ha
    by_cases hlt : (f.data.length : Int) < L
    · rw [(createArchive_run_by_size L client fileName w f hf hr).1 hlt] at ha
      simp only [Outcome.ret.injEq] at ha
      subst ha
      exact Or.inl ⟨rfl, hne, rfl⟩
    · rcases hnf : nextFault w.faults with _ | e
      · have hok : ∀ e, w.faults.head? ≠ some (some e) := by
          intro e he
          cases hfs : w.faults with
          | nil => simp [hfs] at he
          | cons o rest =>
            simp only [hfs, List.head?_cons, Option.some.injEq] at he
            subst he
            simp [hfs, nextFault] at hnf
        rw [((createArchive_run_by_size L client fileName w f hf hr).2 (not_lt.mp hlt) hok).1]
          at ha
        simp only [Outcome.ret.injEq] at ha
        subst ha
        exact Or.inr ⟨rfl, hurl _ _, rfl⟩
      · simp [createArchive, run_bind, M.bind, M.pure, run_fileSize fileName w f hf, hlt,
          StorageClient.Upload, popFault, hnf, emit, checkErr_run] at ha
  · intro he hL
    have hlt : (f.data.length : Int) < L := by simp [he, hL]
    rw [(createArchive_run_by_size L client fileName w f hf hr).1 hlt, he]

theorem demoWorld_getUrl_ne (u id : String) : demoWorld.getUrl u id ≠ "" := by
  intro h
  have h1 : (u ++ "/archive?id=" ++ id).length = 0 := by
    have := congrArg String.length h
    simpa [demoWorld] using this
  simp only [String.length_append] at h1
  have h2 : "/archive?id=".length = 12 := by decide
  omega

/-- The three bytes of `handler.py` give a Literal archive with only the
Literal field populated. -/
theorem createArchive_one_field_populated_witness :
    (createArchive 262144 demoClient "handler.py" demoWorld).out = Outcome.ret demoArchive ∧
    ((demoArchive.Type_ = ArchiveType.literal ∧ demoArchive.Literal ≠ [] ∧
        demoArchive.URL = "") ∨
      (demoArchive.Type_ = ArchiveType.url ∧ demoArchive.URL ≠ "" ∧
        demoArchive.Literal = [])) :=
  ⟨by decide,
   (createArchive_one_field_populated 262144 demoClient "handler.py" demoWorld
      ⟨[1, 2, 3], true⟩ (by decide) rfl demoWorld_getUrl_ne).1
      (by decide) demoArchive (by decide)⟩

end Fission
